import Mathlib

/-!
Verification development for the TestPilot prompt-crafting and
test-generation core.

Strings of the TypeScript source are modelled as lists of characters
(`Str`); the JavaScript string operations used by the source (`indexOf`,
`substring`, `split`, `replace`, `trim`, `includes`, `endsWith`) are
translated operation by operation.  The generation driver
(`TestGenerator.generateAndValidateTests`) is modelled as a state machine
over `RunState`, with the model, validator and collector collaborators
supplied as oracle functions; one `runLoop` models one
(function, temperature) run, the temperature only selecting the oracles.
-/

abbrev Str := List Char

namespace TP

/-! ## JavaScript string primitives -/

/-- Split at the first occurrence of `pat`:
`breakOnStr s pat = some (before, after)` means `s = before ++ pat ++ after`
and no occurrence of `pat` starts inside `before`. -/
def breakOnStr : Str → Str → Option (Str × Str)
  | [], pat => if pat.isPrefixOf ([] : Str) then some ([], []) else none
  | c :: tl, pat =>
    if pat.isPrefixOf (c :: tl) then some ([], (c :: tl).drop pat.length)
    else (breakOnStr tl pat).map (fun p => (c :: p.1, p.2))

/-- JS `s.includes(pat)`. -/
def strContains (s pat : Str) : Bool := (breakOnStr s pat).isSome

/-- JS `s.indexOf(pat)`: index of the first occurrence, or `-1`. -/
def jsIndexOf (s pat : Str) : Int :=
  match breakOnStr s pat with
  | some p => (p.1.length : Int)
  | none => -1

/-- JS `s.indexOf(pat, from)`; a negative `from` is clamped to `0`. -/
def jsIndexOfFrom (s pat : Str) (i : Int) : Int :=
  let k := i.toNat
  match breakOnStr (s.drop k) pat with
  | some p => (k : Int) + (p.1.length : Int)
  | none => -1

/-- JS `s.substring(a, b)`: both arguments are clamped to `[0, s.length]`
and swapped when out of order. -/
def substringJS (s : Str) (a b : Int) : Str :=
  let len : Int := (s.length : Int)
  let a' := (max 0 (min a len)).toNat
  let b' := (max 0 (min b len)).toNat
  let lo := min a' b'
  let hi := max a' b'
  (s.drop lo).take (hi - lo)

/-- JS `s.substring(a)`. -/
def substringFrom (s : Str) (a : Int) : Str := substringJS s a (s.length : Int)

/-- JS `s.replace(pat, repl)` with a plain-string pattern: replaces the
first occurrence only, and is the identity when `pat` does not occur. -/
def replaceFirst (s pat repl : Str) : Str :=
  match breakOnStr s pat with
  | some p => p.1 ++ repl ++ p.2
  | none => s

/-- Fuelled body of a JS `while (s.includes(pat)) s = s.replace(pat, repl)`
loop.  All three loops in the source have `repl` one character shorter than
`pat`, so every iteration shrinks the string and fuel `s.length` always
reaches the loop's fixed point. -/
def whileReplaceFuel (pat repl : Str) : Nat → Str → Str
  | 0, s => s
  | n + 1, s =>
    match breakOnStr s pat with
    | some p => whileReplaceFuel pat repl n (p.1 ++ repl ++ p.2)
    | none => s

/-- JS `while (s.includes(pat)) s = s.replace(pat, repl)`. -/
def whileReplace (pat repl s : Str) : Str := whileReplaceFuel pat repl s.length s

/-- The whitespace characters relevant to this code base (JS `trim` and `\S`
cover a larger exotic set; the source strings only involve these). -/
def isJsWhitespace (c : Char) : Bool :=
  c == ' ' || c == '\t' || c == '\n' || c == '\r'

/-- JS `s.trim()`. -/
def jsTrim (s : Str) : Str :=
  ((s.dropWhile isJsWhitespace).reverse.dropWhile isJsWhitespace).reverse

/-- Fuelled body of JS `s.split(pat)`. -/
def splitFuel (pat : Str) : Nat → Str → List Str
  | 0, s => [s]
  | n + 1, s =>
    match breakOnStr s pat with
    | none => [s]
    | some p => p.1 :: splitFuel pat n p.2

/-- JS `s.split(pat)` for the non-empty patterns used by the source; with
fuel `s.length` the recursion always passes a strictly shorter remainder,
so the fuel is never exhausted before the final piece. -/
def splitOnStr (s pat : Str) : List Str := splitFuel pat s.length s

/-- JS `body.split('\n')[0]`: the characters before the first newline. -/
def firstLine (s : Str) : Str := s.takeWhile (fun c => c != '\n')

/-! ## Bracket closing (from `syntax.ts`) -/

/-- The closing bracket matching an opening one, if `c` is an opener. -/
def closerFor (c : Char) : Option Char :=
  if c == '(' then some ')'
  else if c == '[' then some ']'
  else if c == '\x7b' then some '\x7d'
  else none

/-- Whether `c` is a closing bracket. -/
def isCloser (c : Char) : Bool := c == ')' || c == ']' || c == '\x7d'

/-- Modelled from the spec: `closeBrackets` lives in `syntax.ts`, which is
not under `src/`.  Per §4.2 step 4 it auto-closes any brackets, parens or
braces left open by the fragment, preserving source order, and signals
failure when closing is not mechanically possible — that is, when a closing
bracket appears that does not match the innermost open one.
`closeBracketsRun` scans the fragment and returns the stack of still-pending
closers, innermost first, or `none` on a mismatched closer. -/
def closeBracketsRun : Str → List Char → Option (List Char)
  | [], stack => some stack
  | c :: tl, stack =>
    match closerFor c with
    | some cl => closeBracketsRun tl (cl :: stack)
    | none =>
      if isCloser c then
        match stack with
        | top :: rest => if c == top then closeBracketsRun tl rest else none
        | [] => none
      else closeBracketsRun tl stack

/-- Modelled from the spec (see `closeBracketsRun`): the source of the
fragment followed by the closers of everything still open. -/
def closeBrackets (s : Str) : Option Str :=
  (closeBracketsRun s []).map (fun stack => s ++ stack)

/-! ## Data model (`promptCrafting.ts`) -/

/-- The part of an `APIFunction` descriptor that the core reads. -/
structure APIDescriptor where
  docComment : Option Str
  implementation : Str
deriving DecidableEq, Repr

/-- External entity identifying a library function (consumed, not owned). -/
structure APIFunction where
  packageName : Str
  accessPath : Str
  signature : Str
  descriptor : APIDescriptor
deriving DecidableEq, Repr

/-- `PromptOptions`: the three inclusion flags.  The two template-file names
of the source record are resolved externally; both templates are embedded
verbatim below, so the names are dropped from the model. -/
structure PromptOptions where
  includeSnippets : Bool
  includeDocComment : Bool
  includeFunctionBody : Bool
deriving DecidableEq, Repr

/-- `defaultPromptOptions()`. -/
def defaultPromptOptions : PromptOptions := ⟨false, false, false⟩

/-- Whether a `Prompt` is the base class or the `RetryPrompt` subclass,
which additionally owns the failing completion body and the error text. -/
inductive PromptKind where
  | normal : PromptKind
  | retryK (body : Str) (err : Str) : PromptKind
deriving DecidableEq, Repr

/-- Structured representation of one prompt.  The derived textual fields
(imports, headers, doc comment, function body) are recomputed from `func`
and `options` by the functions below exactly as the constructor computes
them; provenance is mutable in the source and is therefore kept next to the
prompt in the driver state, not inside it. -/
structure Prompt where
  func : APIFunction
  usageSnippets : List Str
  options : PromptOptions
  kind : PromptKind
deriving DecidableEq, Repr

/-- Modelled from the spec: `sanitizePackageName` lives in `exploreAPI.ts`,
which is not under `src/`.  The import block is "derived deterministically
from the function's package name" (§3) and the repository's tests show
`zip-a-folder ↦ zip_a_folder`, so characters that cannot appear in an
identifier are replaced by underscores. -/
def sanitizePackageName (s : Str) : Str :=
  s.map (fun c => if c.isAlphanum || c == '_' then c else '_')

/-- The import block built by the `Prompt` constructor.  The source builds
it with a `dedent` template literal whose explicit final `\n` escape
survives `dedent`'s trailing trim, so the block ends in exactly one
newline. -/
def importsOf (f : APIFunction) : Str :=
  "let mocha = require(\x27mocha\x27);\n".toList ++
  "let assert = require(\x27assert\x27);\n".toList ++
  "let ".toList ++ sanitizePackageName f.packageName ++
  " = require(\x27".toList ++ f.packageName ++ "\x27);\n".toList

/-- `this.suiteHeader`. -/
def suiteHeaderOf (f : APIFunction) : Str :=
  "describe(\x27test ".toList ++ sanitizePackageName f.packageName ++
  "\x27, function() \x7b\n".toList

/-- `this.testHeader`. -/
def testHeaderOf (f : APIFunction) : Str :=
  "    it(\x27test ".toList ++ f.accessPath ++ "\x27, function(done) \x7b\n".toList

/-- Modelled from the spec: `trimAndCombineDocComment` lives in `syntax.ts`,
which is not under `src/`.  The repository's tests expect
`*\n* zips folder \n* @param ...` to render as
`// zips folder\n// @param ...\n`: leading comment markers are stripped,
lines trimmed, empty lines dropped, the rest prefixed with `// `,
newline-joined, with one trailing newline. -/
def trimAndCombineDocComment (s : Str) : Str :=
  let lines := splitOnStr s ("\n".toList)
  let cleaned := lines.map (fun l =>
    jsTrim (l.dropWhile (fun c => isJsWhitespace c || c == '*' || c == '\x27')))
  let kept := (cleaned.filter (fun l => !l.isEmpty)).map (fun l => "// ".toList ++ l)
  match kept with
  | [] => []
  | _ => List.intercalate ("\n".toList) kept ++ "\n".toList

/-- `this.docComment`, as set by the constructor. -/
def Prompt.docComment (p : Prompt) : Str :=
  if p.options.includeDocComment then
    trimAndCombineDocComment (p.func.descriptor.docComment.getD [])
  else []

/-- `this.functionBody`, as set by the constructor. -/
def Prompt.functionBody (p : Prompt) : Str :=
  if p.options.includeFunctionBody then p.func.descriptor.implementation else []

/-- `this.imports + this.suiteHeader + this.testHeader`: the `code` field
handed to the template. -/
def Prompt.codeField (p : Prompt) : Str :=
  importsOf p.func ++ suiteHeaderOf p.func ++ testHeaderOf p.func

/-- `Prompt.assembleUsageSnippets()`: numbers each snippet and joins the
snippet's lines without any separator (`lines.join("")` deliberately removes
the internal newlines). -/
def Prompt.assembleUsageSnippets (p : Prompt) : Str :=
  if !p.options.includeSnippets then []
  else
    ((p.usageSnippets.enum.map (fun si =>
      "// usage #".toList ++ (Nat.repr (si.1 + 1)).toList ++ "\n".toList ++
      (splitOnStr si.2 ("\n".toList)).foldr (· ++ ·) [] ++ "\n".toList))).foldr (· ++ ·) []

/-! ## Template expansion and normalization (`Prompt.assemble`) -/

/-- `templates/template.hb` up to the `docComments` field. -/
def templateBeforeDoc : Str :=
  "Your task is to write a test for the following function:\n\x60\x60\x60\n".toList

/-- `templates/template.hb` between `docComments` and `signature`. -/
def templateDocToSig : Str := "\n".toList

/-- `templates/template.hb` between `signature` and `functionBody`. -/
def templateSigToBody : Str := "\n\x60\x60\x60\n\n".toList

/-- `templates/template.hb` between `functionBody` and `snippets`. -/
def templateBodyToSnippets : Str := "\n\n".toList

/-- `templates/template.hb` between `snippets` and `code`. -/
def templateSnippetsToCode : Str :=
  "\n\nPlease proceed by modifying the following code fragment:\n\x60\x60\x60\n".toList

/-- `templates/template.hb` after the `code` field (note the trailing blank
after the closing fence and after `any`, and the double blank in
`tests.  The`, all byte-exact from the template file). -/
def templateAfterCode : Str :=
  "\n\x60\x60\x60 \nso that it becomes a test suite containing a few self-contained unit tests.  The tests should not rely on any \nexternal resources. For example, a test should not attempt to access files that it does not create itself.\n\nProvide your answer as a fenced code block.".toList

/-- Handlebars triple-stache expansion of `templates/template.hb`: plain
substitution of the five fields. -/
def expandTemplate (docComments signature functionBody snippets code : Str) : Str :=
  templateBeforeDoc ++ docComments ++ templateDocToSig ++ signature ++
  templateSigToBody ++ functionBody ++ templateBodyToSnippets ++ snippets ++
  templateSnippetsToCode ++ code ++ templateAfterCode

/-- The six normalization passes of `Prompt.assemble`, in source order:
three replace-until-gone loops (newline collapsing, blank line after an
opening fence, blank line before a closing fence) and three one-shot
first-occurrence insertions of a paragraph break. -/
def normalizePasses (s : Str) : Str :=
  let s := whileReplace ("\n\n\n".toList) ("\n\n".toList) s
  let s := whileReplace ("\x60\x60\x60\n\n".toList) ("\x60\x60\x60\n".toList) s
  let s := whileReplace ("\n\n\x60\x60\x60".toList) ("\n\x60\x60\x60".toList) s
  let s := if strContains s ("Please".toList) then
    replaceFirst s ("Please".toList) ("\nPlease".toList) else s
  let s := if strContains s ("This function".toList) then
    replaceFirst s ("This function".toList) ("\nThis function".toList) else s
  let s := if strContains s ("You may use".toList) then
    replaceFirst s ("You may use".toList) ("\nYou may use".toList) else s
  s

/-- The `functionBody` template field: empty stays empty (falsy in JS),
otherwise the explanatory sentence plus fenced block around the trimmed
body. -/
def wrapFunctionBody (fb : Str) : Str :=
  if fb.isEmpty then []
  else "This function is defined as follows:\n\x60\x60\x60\n".toList ++ jsTrim fb ++
    "\n\x60\x60\x60".toList

/-- The `snippets` template field: empty stays empty, otherwise the
explanatory sentence plus fenced block around the assembled snippets. -/
def wrapSnippets (sn : Str) : Str :=
  if sn.isEmpty then []
  else "You may use the following examples to guide your implementation:\n\x60\x60\x60\n".toList ++
    sn ++ "\n\x60\x60\x60".toList

/-! ## Test completion (`Prompt.completeTest`) -/

/-- `body.trim().replace(/^(?=\S)/, " ".repeat(8))`: eight spaces are
prepended when the trimmed body starts with a non-whitespace character
(after `trim` that is every non-empty body). -/
def indentFirstLine (s : Str) : Str :=
  match s with
  | [] => []
  | c :: _ => if !isJsWhitespace c then "        ".toList ++ s else s

/-- `fixed.source.replace(/\}\)\}\)$/, "    })\n})")`. -/
def beautifyClosing (s : Str) : Str :=
  if ("\x7d)\x7d)".toList).isSuffixOf s then
    s.take (s.length - 4) ++ "    \x7d)\n\x7d)".toList
  else s

/-- The generic suite/case headers used when `stubOutHeaders` is true. -/
def stubHeaders : Str :=
  "describe(\x27test suite\x27, function() \x7b\n    it(\x27test case\x27, function(done) \x7b\n".toList

/-- `Prompt.completeTest(body, stubOutHeaders = true)`: prepend the import
block when the first line of `body` does not mention `require`; wrap the
body in (generic or own) suite/case headers unless it already contains a
`describe(`; close open brackets (the one failure path); beautify a
trailing `})})`. -/
def Prompt.completeTest (p : Prompt) (body : Str) (stubOutHeaders : Bool := true) :
    Option Str :=
  let code : Str :=
    if strContains (firstLine body) ("require".toList) then []
    else importsOf p.func ++ "\n".toList
  let code : Str :=
    if !strContains body ("describe(".toList) then
      code ++ (if stubOutHeaders then stubHeaders
               else suiteHeaderOf p.func ++ testHeaderOf p.func) ++
      indentFirstLine (jsTrim body) ++ "\n".toList
    else code ++ body
  (closeBrackets code).map beautifyClosing

/-! ## Assembly -/

/-- Modelled from the spec: the retry template (named by
`retryTemplateFileName`) is not under `src/`; §4.5 specifies its two fields
`test` and `error` and that no normalization passes are applied to retry
output.  Its concrete text follows the expected retry prompt in the
repository's tests; no claim below depends on the exact surrounding text,
only on retry assembly being a function of the completed failing test and
the error message. -/
def retryExpand (test err : Str) : Str :=
  "The test:\n\x60\x60\x60\n".toList ++ test ++
  "\n\x60\x60\x60 \nfailed with the following error message:\n\x60\x60\x60\n".toList ++ err ++
  "\n\x60\x60\x60\n\nYour task is to modify the above code to fix the test. \n\nProvide your answer as a fenced code block.".toList

/-- `Prompt.assemble()` and its `RetryPrompt` override.  For a normal
prompt: expand the primary template on the five fields and normalize.  For
a retry prompt: expand the retry template on the previous prompt's
completed failing body and the error message (handlebars renders an
`undefined` field — a failed completion — as the empty string, hence
`getD []`). -/
def Prompt.assemble (p : Prompt) : Str :=
  match p.kind with
  | .normal =>
    normalizePasses (expandTemplate p.docComment (jsTrim p.func.signature)
      (wrapFunctionBody p.functionBody) (wrapSnippets p.assembleUsageSnippets)
      p.codeField)
  | .retryK body err => retryExpand ((p.completeTest body).getD []) err

/-! ## Test outcomes and refiners -/

/-- Modelled from the spec: `TestOutcome` lives in `report.ts`, which is not
under `src/`; §3 and §6 give it as `PASSED | FAILED(message) | other`.  The
source reads `outcome.status` and, on failure, `outcome.err.message`. -/
inductive TestOutcome where
  | passed : TestOutcome
  | failed (message : Str) : TestOutcome
  | other : TestOutcome
deriving DecidableEq, Repr

/-- `outcome.status === TestStatus.PASSED`. -/
def outcomeIsPassed : TestOutcome → Bool
  | .passed => true
  | _ => false

/-- `outcome.status === TestStatus.FAILED`. -/
def outcomeIsFailed : TestOutcome → Bool
  | .failed _ => true
  | _ => false

/-- `new Prompt(fun, usageSnippets, options)`. -/
def mkPrompt (f : APIFunction) (snippets : List Str) (o : PromptOptions) : Prompt :=
  ⟨f, snippets, o, .normal⟩

/-- `new RetryPrompt(prev, body, err)`: the subclass constructor passes
`prev.fun`, `prev.usageSnippets` and `prev.options` to the base
constructor; `prev` itself is used only through `prev.completeTest`, which
depends on `prev.fun` alone, so the wrapper is represented by those fields
plus the retry payload. -/
def mkRetryPrompt (prev : Prompt) (body err : Str) : Prompt :=
  ⟨prev.func, prev.usageSnippets, prev.options, .retryK body err⟩

/-- `original instanceof RetryPrompt`. -/
def Prompt.isRetryPrompt (p : Prompt) : Bool :=
  match p.kind with
  | .retryK _ _ => true
  | .normal => false

/-- `Prompt.functionHasDocComment()`. -/
def Prompt.functionHasDocComment (p : Prompt) : Bool :=
  p.func.descriptor.docComment.isSome

/-- `SnippetIncluder.refine`. -/
def snippetIncluderRefine (original : Prompt) (_completion : Str)
    (_outcome : TestOutcome) : List Prompt :=
  if !original.options.includeSnippets && !original.usageSnippets.isEmpty then
    [mkPrompt original.func original.usageSnippets
      { original.options with includeSnippets := true }]
  else []

/-- `DocCommentIncluder.refine`. -/
def docCommentIncluderRefine (original : Prompt) (_completion : Str)
    (_outcome : TestOutcome) : List Prompt :=
  if !original.options.includeDocComment && original.functionHasDocComment then
    [mkPrompt original.func original.usageSnippets
      { original.options with includeDocComment := true }]
  else []

/-- `FunctionBodyIncluder.refine`. -/
def functionBodyIncluderRefine (original : Prompt) (_completion : Str)
    (_outcome : TestOutcome) : List Prompt :=
  if !original.options.includeFunctionBody &&
      !original.func.descriptor.implementation.isEmpty then
    [mkPrompt original.func original.usageSnippets
      { original.options with includeFunctionBody := true }]
  else []

/-- `RetryWithError.refine`: fires when the original is not itself a
`RetryPrompt` and the outcome status is FAILED. -/
def retryWithErrorRefine (original : Prompt) (completion : Str)
    (outcome : TestOutcome) : List Prompt :=
  match outcome with
  | .failed msg =>
    if !original.isRetryPrompt then [mkRetryPrompt original completion msg] else []
  | _ => []

/-- A refiner as consumed by the driver: its provenance name and its
`refine` function. -/
abbrev RefineFn := Prompt → Str → TestOutcome → List Prompt

/-- The `TestGenerator.refiners` list, in construction order. -/
def refinerList : List (Str × RefineFn) :=
  [("SnippetIncluder".toList, snippetIncluderRefine),
   ("RetryWithError".toList, retryWithErrorRefine),
   ("DocCommentIncluder".toList, docCommentIncluderRefine),
   ("FunctionBodyIncluder".toList, functionBodyIncluderRefine)]

/-! ## Completion extraction (`extractTestFromRawCompletion`) -/

/-- Least index at which a triple backtick fence starts, if any. -/
def firstTicksIdx : Str → Option Nat
  | [] => none
  | c :: tl =>
    if ("\x60\x60\x60".toList).isPrefixOf (c :: tl) then some 0
    else (firstTicksIdx tl).map (· + 1)

/-- First-match semantics of `/```[^\n\r]*\n((?:.(?!```))*)\n```/gs` at one
candidate start: after the opening fence the tag greedily consumes the rest
of the line and must end in `\n` (a `\r` or end of input fails); the group
then runs up to the first later fence, which the trailing `\n```` forces to
be preceded by a newline — an interior fence not preceded by a newline
makes the whole start fail (the `(?!```)` lookahead forbids stopping any
earlier). -/
def tryBlockAt (s : Str) : Option Str :=
  if ("\x60\x60\x60".toList).isPrefixOf s then
    let afterTag := (s.drop 3).dropWhile (fun c => c != '\n' && c != '\r')
    match afterTag with
    | '\n' :: body =>
      match (firstTicksIdx (body.drop 1)).map (· + 1) with
      | some q =>
        if body.get? (q - 1) = some '\n' then some (body.take (q - 1)) else none
      | none => none
    | _ => none
  else none

/-- Leftmost match of the extraction regex: try every start position in
order, as the regex engine does. -/
def firstFencedBlock : Str → Option Str
  | [] => none
  | c :: tl =>
    match tryBlockAt (c :: tl) with
    | some code => some code
    | none => firstFencedBlock tl

/-- Insertion into a JS `Set` held as an insertion-ordered list. -/
def setInsert (l : List Str) (x : Str) : List Str :=
  if x ∈ l then l else l ++ [x]

/-- The splitting loop of `extractTestFromRawCompletion`: advance
`testIndex` to each further occurrence of `it(`, adding the slice between
consecutive occurrences, then add the final slice.  Each iteration moves
`testIndex` strictly forward, so fuel `code.length + 1` is never exhausted
before the loop's exit condition. -/
def collectTests (code : Str) : Nat → Int → List Str → List Str
  | 0, testIndex, set => setInsert set (substringFrom code testIndex)
  | fuel + 1, testIndex, set =>
    let next := jsIndexOfFrom code ("it(".toList) (testIndex + 1)
    if next = -1 then setInsert set (substringFrom code testIndex)
    else collectTests code fuel next (setInsert set (substringJS code testIndex next))

/-- `extractTestFromRawCompletion`: take the first fenced block; a block
with exactly one `it(` occurrence (JS `split` length 2) is one candidate;
otherwise split at each `it(` occurrence and prefix the material before the
suite declaration plus the suite header onto every slice; with no block at
all, fall back to the raw completion. -/
def extractTestFromRawCompletion (rawCompletion : Str) : List Str :=
  match firstFencedBlock rawCompletion with
  | some code =>
    if (splitOnStr code ("it(".toList)).length = 2 then [code]
    else
      let indexOfSuite := jsIndexOf code ("describe(".toList)
      let indexOfFirstTest := jsIndexOf code ("it(".toList)
      let set := collectTests code (code.length + 1) indexOfFirstTest []
      let preSuite := substringJS code 0 indexOfSuite
      let suiteHeader := substringJS code indexOfSuite indexOfFirstTest
      (set.map (fun test => preSuite ++ suiteHeader ++ test)).foldl setInsert []
  | none => [rawCompletion]

/-! ## Generation driver (`TestGenerator`)

One `(function, temperature)` run.  The model and validator collaborators
are oracle functions (`Oracles`); the temperature only selects the oracle
and is not represented.  The collector collaborator (`testResultCollector`,
not under `src/`) is modelled from its §6 interface: records are keyed by
test source (`recordTestInfo` is idempotent by source identity, with
`prompts` accumulating callers), `recordTestResult` and `recordPromptInfo`
are append-only logs; the externally generated `testName` is modelled as
the function's access path.  `validations` logs every invocation of the
validator collaborator. -/

/-- `PromptProvenance`. -/
structure PromptProvenance where
  originalPrompt : Prompt
  testId : Nat
  refiner : Str
deriving DecidableEq, Repr

/-- A prompt together with its (source-side mutable) provenance list. -/
structure PromptRec where
  prompt : Prompt
  provenance : List PromptProvenance
deriving DecidableEq, Repr

/-- `ITestInfo` as returned by the collector. -/
structure TestInfoRec where
  id : Nat
  prompts : List Prompt
  testName : Str
  testSource : Str
  outcome : TestOutcome
deriving DecidableEq, Repr

/-- One `recordPromptInfo(prompt, temperature, completions)` call. -/
structure PromptInfoEntry where
  prompt : Prompt
  completions : List Str
deriving DecidableEq, Repr

/-- The state of one `(function, temperature)` run: the worklist, the
dedup map `generatedPrompts` (insertion-ordered association list), the
`generatedPassingTests` flag, the collector's records and result log, the
log of validator invocations, the log of `recordPromptInfo` calls, and the
log of model queries. -/
structure RunState where
  worklist : List PromptRec
  generated : List (Str × PromptRec)
  generatedPassingTests : Bool
  records : List TestInfoRec
  results : List (Nat × TestOutcome)
  validations : List (Str × Str)
  promptInfos : List PromptInfoEntry
  queries : List Str
deriving Repr

/-- The external collaborators of one run: the completion model (already
specialised to the run's temperature) and the test validator. -/
structure Oracles where
  completions : Str → List Str
  validateTest : Str → Str → TestOutcome

/-- Lookup in the dedup map. -/
def lookupGenerated (m : List (Str × PromptRec)) (k : Str) : Option PromptRec :=
  (m.find? (fun e => e.1 == k)).map (fun e => e.2)

/-- `previousPrompt.withProvenance(...prompt.provenance)`: the canonical
prompt for `k` absorbs the provenance records `prov`. -/
def absorbProvenance (m : List (Str × PromptRec)) (k : Str)
    (prov : List PromptProvenance) : List (Str × PromptRec) :=
  m.map (fun e =>
    (e.1, if e.1 == k then ⟨e.2.prompt, e.2.provenance ++ prov⟩ else e.2))

/-- Collector lookup: records are keyed by test source. -/
def findRecord (rs : List TestInfoRec) (src : Str) : Option TestInfoRec :=
  rs.find? (fun r => r.testSource == src)

/-- Replace the record with the same id. -/
def updateRecord (rs : List TestInfoRec) (r : TestInfoRec) : List TestInfoRec :=
  rs.map (fun r0 => if r0.id == r.id then r else r0)

/-- The outcome message of the `EmptyCompletion` error path. -/
def emptyTestMsg : Str := "Empty test".toList

/-- The outcome message of the `Unparseable` error path. -/
def invalidSyntaxMsg : Str := "Invalid syntax".toList

/-- `TestGenerator.validateCompletion(prompt, completion, temperature)`:
complete the candidate; record it (idempotently by source, the raw
completion standing in when completion failed); if the source was already
recorded (`testInfo.prompts.length > 1`) return the existing record without
re-validating; otherwise compute the outcome — `FAILED("Empty test")` for an
empty candidate without invoking the validator, the validator's verdict for
a completed candidate, `FAILED("Invalid syntax")` for an uncompletable one —
and record the result. -/
def validateCompletionM (orc : Oracles) (p : Prompt) (completion : Str)
    (st : RunState) : TestInfoRec × RunState :=
  let testSource? := p.completeTest completion
  let key := testSource?.getD completion
  match findRecord st.records key with
  | some r =>
    let r' := { r with prompts := r.prompts ++ [p] }
    (r', { st with records := updateRecord st.records r' })
  | none =>
    let name := p.func.accessPath
    let vres : TestOutcome × List (Str × Str) :=
      if completion = [] then (TestOutcome.failed emptyTestMsg, st.validations)
      else
        match testSource? with
        | some src => (orc.validateTest name src, st.validations ++ [(name, src)])
        | none => (TestOutcome.failed invalidSyntaxMsg, st.validations)
    let r : TestInfoRec := ⟨st.records.length, [p], name, key, vres.1⟩
    (r, { st with records := st.records ++ [r],
                  results := st.results ++ [(r.id, vres.1)],
                  validations := vres.2 })

/-- Push every prompt of `qs`, annotated with one provenance record naming
the refiner, onto the worklist (modelled as a stack with push = cons). -/
def pushRefined (pr : PromptRec) (tid : Nat) (name : Str) (st : RunState)
    (qs : List Prompt) : RunState :=
  qs.foldl (fun st q =>
    { st with worklist := ⟨q, [⟨pr.prompt, tid, name⟩]⟩ :: st.worklist }) st

/-- `TestGenerator.refinePrompts`: run every refiner on
`(prompt, completion, outcome)` and push each proposed prompt, annotated
with one provenance record, onto the worklist. -/
def refinePrompts (pr : PromptRec) (completion : Str) (info : TestInfoRec)
    (st : RunState) : RunState :=
  refinerList.foldl (fun st rf =>
    pushRefined pr info.id rf.1 st (rf.2 pr.prompt completion info.outcome)) st

/-- One iteration of the inner candidate loop of
`generateAndValidateTests`: validate the extracted test, raise the
`generatedPassingTests` flag on a pass, and refine. -/
def processOneTest (orc : Oracles) (pr : PromptRec) (t : Str)
    (st : RunState) : RunState :=
  let ires := validateCompletionM orc pr.prompt t st
  let st2 := if outcomeIsPassed ires.1.outcome then
    { ires.2 with generatedPassingTests := true } else ires.2
  refinePrompts pr t ires.1 st2

/-- The inner candidate loop of `generateAndValidateTests`: process each
extracted test in turn and `break` out of the loop as soon as the
`generatedPassingTests` flag is set. -/
def processTests (orc : Oracles) (pr : PromptRec) :
    List Str → RunState → RunState
  | [], st => st
  | t :: rest, st =>
    let st3 := processOneTest orc pr t st
    if st3.generatedPassingTests then st3 else processTests orc pr rest st3

/-- The loop over the model's raw completions: extract candidates from each
and process them when any were found (extraction never returns an empty
set, but the source guards on it). -/
def processRaws (orc : Oracles) (pr : PromptRec) :
    List Str → RunState → RunState
  | [], st => st
  | raw :: rest, st =>
    let tests := extractTestFromRawCompletion raw
    let st' := if tests.length > 0 then processTests orc pr tests st else st
    processRaws orc pr rest st'

/-- One iteration of the worklist loop, applied to the popped prompt `pr`
(already removed from the worklist): on a dedup hit the canonical prompt
absorbs the popped provenance and nothing else happens; otherwise the
assembled text is registered and queried, the completions are processed,
and `recordPromptInfo` is called with the local `completions` set — which
the source creates and never populates. -/
def stepPrompt (orc : Oracles) (pr : PromptRec) (st : RunState) : RunState :=
  let assembled := pr.prompt.assemble
  match lookupGenerated st.generated assembled with
  | some _ =>
    { st with generated := absorbProvenance st.generated assembled pr.provenance }
  | none =>
    let st1 := { st with generated := st.generated ++ [(assembled, pr)],
                         queries := st.queries ++ [assembled] }
    let rawCompletions := orc.completions assembled
    let comps : List Str := []
    let st2 := processRaws orc pr rawCompletions st1
    { st2 with promptInfos := st2.promptInfos ++ [⟨pr.prompt, comps⟩] }

/-- The fuelled worklist loop `while (worklist.length > 0)`; termination is
proved below (C10), so sufficient fuel always reaches the empty worklist. -/
def runLoop (orc : Oracles) : Nat → RunState → RunState
  | 0, st => st
  | n + 1, st =>
    match st.worklist with
    | [] => st
    | pr :: rest => runLoop orc n (stepPrompt orc pr { st with worklist := rest })

/-- The per-temperature initial state: the worklist seeded with the base
prompt (default inclusion flags), everything else empty. -/
def initState (f : APIFunction) (snippets : List Str) : RunState :=
  ⟨[⟨mkPrompt f snippets defaultPromptOptions, []⟩], [], false, [], [], [], [], []⟩

/-- One `(function, temperature)` run of `generateAndValidateTests`. -/
def runForTemperature (orc : Oracles) (f : APIFunction) (snippets : List Str)
    (fuel : Nat) : RunState :=
  runLoop orc fuel (initState f snippets)

/-! ## Termination bound data (for the C10 analysis)

A `(function, temperature)` run can only ever query finitely many distinct
assembled texts: the eight flag combinations of the base prompt, plus one
retry text per (candidate of a base query, reachable error message) pair.
The definitions below enumerate that (overapproximated) universe and build
a potential function over run states that every worklist iteration
strictly decreases. -/

/-- All eight values of the three inclusion flags. -/
def allOptionCombos : List PromptOptions :=
  [⟨false, false, false⟩, ⟨false, false, true⟩, ⟨false, true, false⟩,
   ⟨false, true, true⟩, ⟨true, false, false⟩, ⟨true, false, true⟩,
   ⟨true, true, false⟩, ⟨true, true, true⟩]

/-- The assembled texts of the eight possible non-retry prompts. -/
def baseTexts (f : APIFunction) (snippets : List Str) : List Str :=
  allOptionCombos.map (fun o => (mkPrompt f snippets o).assemble)

/-- Every candidate the model's completions for text `t` can extract. -/
def candsOfText (orc : Oracles) (t : Str) : List Str :=
  (orc.completions t).flatMap extractTestFromRawCompletion

/-- Every candidate extractable from any base-prompt query. -/
def allBaseCands (orc : Oracles) (f : APIFunction) (snippets : List Str) :
    List Str :=
  (baseTexts f snippets).flatMap (candsOfText orc)

/-- The message of a FAILED outcome. -/
def msgOfFailed : TestOutcome → Option Str
  | .failed m => some m
  | _ => none

/-- The recorded source of candidate `b`: its completed test, or `b`
itself when completion fails.  `completeTest` depends only on the
function, so any prompt over `f` computes the same source. -/
def recordSrcOf (f : APIFunction) (b : Str) : Str :=
  ((mkPrompt f [] defaultPromptOptions).completeTest b).getD b

/-- Every error message a retry prompt of this run can carry: the two
internal messages plus the validator's verdict on any base candidate's
recorded source. -/
def allMessages (orc : Oracles) (f : APIFunction) (snippets : List Str) :
    List Str :=
  emptyTestMsg :: invalidSyntaxMsg ::
    (allBaseCands orc f snippets).filterMap
      (fun b => msgOfFailed (orc.validateTest f.accessPath (recordSrcOf f b)))

/-- The assembled text of the retry prompt for body `b` and message `m`. -/
def retryTextOf (f : APIFunction) (b m : Str) : Str :=
  retryExpand (((mkPrompt f [] defaultPromptOptions).completeTest b).getD []) m

/-- All retry texts reachable in this run. -/
def retryTexts (orc : Oracles) (f : APIFunction) (snippets : List Str) :
    List Str :=
  (allBaseCands orc f snippets).flatMap
    (fun b => (allMessages orc f snippets).map (retryTextOf f b))

/-- Every assembled text a prompt of this run can have. -/
def allTexts (orc : Oracles) (f : APIFunction) (snippets : List Str) :
    List Str :=
  baseTexts f snippets ++ retryTexts orc f snippets

/-- An upper bound on the worklist pushes one query of text `t` can cause:
four refiner outputs per extracted candidate. -/
def pushBoundOf (orc : Oracles) (t : Str) : Nat :=
  4 * ((orc.completions t).map
    (fun raw => (extractTestFromRawCompletion raw).length)).sum

/-- The largest push bound over the whole text universe. -/
def maxPushBound (orc : Oracles) (f : APIFunction) (snippets : List Str) : Nat :=
  ((allTexts orc f snippets).map (pushBoundOf orc)).foldr max 0

/-- The budget charged for each not-yet-queried text. -/
def stepBudget (orc : Oracles) (f : APIFunction) (snippets : List Str) : Nat :=
  maxPushBound orc f snippets + 2

/-- How many texts of the universe the dedup map does not know yet. -/
def freshCount (orc : Oracles) (f : APIFunction) (snippets : List Str)
    (st : RunState) : Nat :=
  ((allTexts orc f snippets).filter
    (fun t => (lookupGenerated st.generated t).isNone)).length

/-- The termination potential of a run state. -/
def potential (orc : Oracles) (f : APIFunction) (snippets : List Str)
    (st : RunState) : Nat :=
  st.worklist.length + stepBudget orc f snippets * freshCount orc f snippets st

/-- The shape every prompt reachable in a run over `(f, snippets)` has:
the run's function and snippets, and either the base class or a retry
wrapper over a base-query candidate and a reachable message. -/
def PromptShape (orc : Oracles) (f : APIFunction) (snippets : List Str)
    (p : Prompt) : Prop :=
  p.func = f ∧ p.usageSnippets = snippets ∧
  (p.kind = PromptKind.normal ∨
    ∃ b m, p.kind = PromptKind.retryK b m ∧
      b ∈ allBaseCands orc f snippets ∧ m ∈ allMessages orc f snippets)

/-- Every worklist entry has the reachable shape. -/
def WorklistInv (orc : Oracles) (f : APIFunction) (snippets : List Str)
    (st : RunState) : Prop :=
  ∀ pr ∈ st.worklist, PromptShape orc f snippets pr.prompt

/-- Every collector record's outcome is one of the two internal failures
or the validator's verdict on the record's own source. -/
def RecordsInv (orc : Oracles) (f : APIFunction) (st : RunState) : Prop :=
  ∀ r ∈ st.records,
    r.outcome = TestOutcome.failed emptyTestMsg ∨
    r.outcome = TestOutcome.failed invalidSyntaxMsg ∨
    r.outcome = orc.validateTest f.accessPath r.testSource

/-- The state after registering and logging a fresh query for the popped
prompt: its assembled text enters the dedup map and the query log. -/
def queriedState (pr : PromptRec) (st : RunState) : RunState :=
  { st with generated := st.generated ++ [(pr.prompt.assemble, pr)],
            queries := st.queries ++ [pr.prompt.assemble] }

/-- The state after processing every completion of a fresh query. -/
def processedState (orc : Oracles) (pr : PromptRec) (st : RunState) : RunState :=
  processRaws orc pr (orc.completions pr.prompt.assemble) (queriedState pr st)

/-! ## Concrete fixtures

The `plus(x, y)` function of the spec's §8 examples and of the repository's
own tests, plus the concrete bodies and completions used as witnesses and
counterexamples below. -/

/-- `plus(x, y)` in package `plus`, no doc comment, no implementation. -/
def plusFun : APIFunction :=
  ⟨"plus".toList, "plus".toList, "plus(x, y)".toList, ⟨none, []⟩⟩

/-- The base prompt for `plusFun` (no snippets, default options). -/
def plusBasePrompt : Prompt := mkPrompt plusFun [] defaultPromptOptions

/-- A full suite body whose first line does not mention `require`. -/
def c1Body : Str :=
  "describe(\x27test suite\x27, function() \x7b\n    it(\x27test case\x27, function(done) \x7b\n        assert(plus(1, 1), 3);\n    \x7d)\n\x7d)".toList

/-- The same suite preceded by the import block, so that its first line
does mention `require` (the completion of the repository's retry test). -/
def c1RequireBody : Str :=
  "let mocha = require(\x27mocha\x27);\nlet assert = require(\x27assert\x27);\nlet plus = require(\x27plus\x27);\ndescribe(\x27test suite\x27, function() \x7b\n    it(\x27test case\x27, function(done) \x7b\n        assert(plus(1, 1), 3);\n    \x7d)\n\x7d)".toList

/-- A prompt whose usage snippet contains the word `Please`, so that the
one-shot `Please` paragraph-break insertion targets the snippet occurrence
instead of the template's own `Please proceed`. -/
def pleaseSnippetPrompt : Prompt :=
  ⟨plusFun, ["Please()".toList], ⟨true, false, false⟩, .normal⟩

/-- The `code` field the claim expects: a blank line between the import
block and the suite header. -/
def c5ClaimedCode : Str :=
  "let mocha = require(\x27mocha\x27);\nlet assert = require(\x27assert\x27);\nlet plus = require(\x27plus\x27);\n\ndescribe(\x27test plus\x27, function() \x7b\n    it(\x27test plus\x27, function(done) \x7b\n".toList

/-- The `code` field the constructor actually builds: the import block's
single trailing newline runs straight into the suite header. -/
def c5ActualCode : Str :=
  "let mocha = require(\x27mocha\x27);\nlet assert = require(\x27assert\x27);\nlet plus = require(\x27plus\x27);\ndescribe(\x27test plus\x27, function() \x7b\n    it(\x27test plus\x27, function(done) \x7b\n".toList

/-- The error message of the spec's §8 retry example. -/
def c6Msg : Str := "expected 2 to equal 3".toList

/-- Usage snippets for the driver scenario — non-empty, so the snippet
refiner fires and the worklist grows after the passing test. -/
def c2Snippets : List Str := ["plus(1, 2);".toList]

/-- The base prompt of the driver scenario. -/
def c2BasePrompt : Prompt := mkPrompt plusFun c2Snippets defaultPromptOptions

/-- A raw completion whose first fenced block is a two-test suite. -/
def c2Raw : Str :=
  "\x60\x60\x60js\ndescribe(\x27test s\x27, function() \x7b\n    it(\x27a\x27, function(done) \x7b\n        done();\n    \x7d)\n    it(\x27b\x27, function(done) \x7b\n        assert(1);\n        done();\n    \x7d)\n\x7d)\n\x60\x60\x60".toList

/-- The first candidate extracted from `c2Raw` (suite header plus the
first test slice). -/
def c2Cand1 : Str :=
  "describe(\x27test s\x27, function() \x7b\n    it(\x27a\x27, function(done) \x7b\n        done();\n    \x7d)\n    ".toList

/-- The second candidate extracted from `c2Raw`. -/
def c2Cand2 : Str :=
  "describe(\x27test s\x27, function() \x7b\n    it(\x27b\x27, function(done) \x7b\n        assert(1);\n        done();\n    \x7d)\n\x7d)".toList

/-- Driver-scenario oracles: the model answers the base prompt with
`c2Raw` and every other prompt with nothing; the validator passes
everything. -/
def c2Oracles : Oracles :=
  ⟨fun text => if text == c2BasePrompt.assemble then [c2Raw] else [],
   fun _ _ => TestOutcome.passed⟩

/-- The driver scenario: one full run (fuel 10 amply covers the two
worklist items it processes). -/
def c2Run : RunState := runForTemperature c2Oracles plusFun c2Snippets 10

/-- A run state with nothing recorded yet. -/
def emptyState : RunState := ⟨[], [], false, [], [], [], [], []⟩

/-- Oracles whose validator fails everything with message `boom`. -/
def c8Oracles : Oracles :=
  ⟨fun _ => [], fun _ _ => TestOutcome.failed ("boom".toList)⟩

/-- The state after validating the two-space candidate `"  "` — whose
completed source is the same as the empty candidate's, since both trim to
an empty body inside the stubbed headers. -/
def c8State1 : RunState :=
  (validateCompletionM c8Oracles plusBasePrompt ("  ".toList) emptyState).2

/-- Then validating the empty candidate hits the memoized record. -/
def c8Result2 : TestInfoRec × RunState :=
  validateCompletionM c8Oracles plusBasePrompt [] c8State1

/-- A dedup-map state already containing the base prompt's assembled text. -/
def c3DupState : RunState :=
  ⟨[], [(c2BasePrompt.assemble, ⟨c2BasePrompt, []⟩)], false, [], [], [], [], []⟩

/-- A rediscovered copy of the base prompt carrying its own provenance. -/
def c3DupPrompt : PromptRec :=
  ⟨c2BasePrompt, [⟨c2BasePrompt, 0, "SnippetIncluder".toList⟩]⟩

/-- The suite header of `c2Raw`'s fenced block (up to the first `it(`). -/
def c7Sh : Str := "describe(\x27test s\x27, function() \x7b\n    ".toList

/-- The first test slice of `c2Raw`'s block (first `it(` to the second). -/
def c7T1 : Str := "it(\x27a\x27, function(done) \x7b\n        done();\n    \x7d)\n    ".toList

/-- The second test slice of `c2Raw`'s block (second `it(` to the end). -/
def c7T2 : Str :=
  "it(\x27b\x27, function(done) \x7b\n        assert(1);\n        done();\n    \x7d)\n\x7d)".toList

/-- `c2Raw`'s fenced block, decomposed: no pre-suite material, the suite
header, then the two test slices. -/
def c7Code : Str := ([] : Str) ++ c7Sh ++ c7T1 ++ c7T2

/-- A completion whose fenced block is a two-test suite with two identical
test slices (each `it('t');\n`). -/
def c7DupRaw : Str :=
  "\x60\x60\x60\ndescribe(\x27s\x27, function() \x7b\nit(\x27t\x27);\nit(\x27t\x27);\n\n\x60\x60\x60".toList

/-- The fenced block of `c7DupRaw`. -/
def c7DupCode : Str :=
  "describe(\x27s\x27, function() \x7b\nit(\x27t\x27);\nit(\x27t\x27);\n".toList

/-! ## C1 — completeTest on bodies that already contain a suite -/

set_option maxRecDepth 100000 in
/-- C1, counterexample.  The claim says a body containing `describe(` is
returned unmodified by `completeTest` "regardless of whether the body's
first line references the import mechanism".  On `c1Body` — a full suite
whose first line has no `require` — the code prepends the import block plus
a blank line, so the result is not the body. -/
theorem c1_counterexample :
    plusBasePrompt.completeTest c1Body =
      some (importsOf plusFun ++ "\n".toList ++ c1Body) ∧
    plusBasePrompt.completeTest c1Body ≠ some c1Body := by
  constructor
  · decide
  · decide

/-- C1, amended.  If the body already contains a `describe(` suite
declaration, no suite/case headers are injected and the body is passed
through; but the import block is still prepended unless the first line of
the body mentions `require`.  In particular, when the first line does
mention `require` (and the body is bracket-balanced and does not end in the
beautified `})})` pattern) the body is returned unmodified. -/
theorem c1_describe_passthrough (p : Prompt) (body : Str)
    (hdesc : strContains body ("describe(".toList) = true)
    (hreq : strContains (firstLine body) ("require".toList) = true)
    (hbal : closeBrackets body = some body)
    (hsuf : beautifyClosing body = body) :
    p.completeTest body = some body := by
  unfold Prompt.completeTest
  rw [hreq, hdesc]
  simp [hbal, hsuf]

set_option maxRecDepth 100000 in
/-- C1, witness for the amended theorem at the repository's own retry-test
completion. -/
theorem c1_witness : plusBasePrompt.completeTest c1RequireBody = some c1RequireBody :=
  c1_describe_passthrough plusBasePrompt c1RequireBody (by decide) (by decide)
    (by decide) (by decide)

/-! ## C4 — determinism and (non-)idempotence of assembly -/



set_option maxRecDepth 200000 in
/-- C4, counterexample.  Re-applying the normalization passes to the
already-assembled output of `pleaseSnippetPrompt` changes it: the fence
pass first removes the blank line the `You may use` insertion created, and
the `Please` insertion then adds a newline in front of the snippet's
`Please()` that the (already finished) newline-collapsing pass never sees.
So the normalization is not idempotent on assembled output. -/
theorem c4_counterexample :
    normalizePasses pleaseSnippetPrompt.assemble ≠ pleaseSnippetPrompt.assemble := by
  decide

set_option maxRecDepth 200000 in
/-- C4, amended.  Assembly is deterministic — assembling the same prompt
twice yields identical text — but the normalization passes are not
idempotent: re-applying them to an already-assembled output can change it
(here, for a prompt whose snippet mentions `Please`). -/
theorem c4_deterministic_not_idempotent :
    (∀ p : Prompt, p.assemble = p.assemble) ∧
    normalizePasses pleaseSnippetPrompt.assemble ≠ pleaseSnippetPrompt.assemble :=
  ⟨fun _ => rfl, by decide⟩

/-! ## C5 — the assembled `code` field for `plus(x, y)` -/





/-- C5, counterexample.  The `code` field of the `plus(x, y)` prompt does
not contain the blank line the claim inserts between the import block and
the suite header (the repository's own function-body test expects the
blank-free form). -/
theorem c5_counterexample : plusBasePrompt.codeField ≠ c5ClaimedCode := by
  decide

/-- C5, amended.  The `code` field (imports + suite header + test-case
header) of the prompt built from signature `plus(x, y)` with package
`plus`, no doc comment and no snippets, with no blank line between
the import block and the suite header. -/
theorem c5_code_field : plusBasePrompt.codeField = c5ActualCode := by
  decide

/-! ## C6 — RetryWithError.refine -/

/-- C6.  `RetryWithError.refine` returns exactly one `RetryPrompt` —
wrapping the original prompt's fields, the failing body and the outcome's
error message — precisely when the outcome is FAILED and the original is
not itself a retry prompt; it returns the empty list when the original is a
retry (so a retry is never retried: at most one retry hop per lineage) and
when the outcome is not FAILED. -/
theorem c6_retry_refine (original : Prompt) (completion : Str) (outcome : TestOutcome) :
    (∀ msg, outcome = TestOutcome.failed msg → original.isRetryPrompt = false →
      retryWithErrorRefine original completion outcome =
        [mkRetryPrompt original completion msg]) ∧
    (original.isRetryPrompt = true →
      retryWithErrorRefine original completion outcome = []) ∧
    (outcomeIsFailed outcome = false →
      retryWithErrorRefine original completion outcome = []) := by
  refine ⟨?_, ?_, ?_⟩
  · intro msg hmsg hnr
    subst hmsg
    simp [retryWithErrorRefine, hnr]
  · intro hr
    cases outcome <;> simp [retryWithErrorRefine, hr]
  · intro hnf
    cases outcome <;> simp_all [retryWithErrorRefine, outcomeIsFailed]



/-- C6, witness: a FAILED outcome on the non-retry `plus` base prompt
produces exactly the one retry prompt. -/
theorem c6_witness :
    retryWithErrorRefine plusBasePrompt c1RequireBody (TestOutcome.failed c6Msg) =
      [mkRetryPrompt plusBasePrompt c1RequireBody c6Msg] :=
  (c6_retry_refine plusBasePrompt c1RequireBody (TestOutcome.failed c6Msg)).1
    c6Msg rfl rfl

/-! ## Frame lemmas for the driver -/

theorem validateCompletionM_frame (orc : Oracles) (p : Prompt) (c : Str)
    (st : RunState) :
    (validateCompletionM orc p c st).2.worklist = st.worklist ∧
    (validateCompletionM orc p c st).2.generated = st.generated ∧
    (validateCompletionM orc p c st).2.queries = st.queries ∧
    (validateCompletionM orc p c st).2.promptInfos = st.promptInfos ∧
    (validateCompletionM orc p c st).2.generatedPassingTests =
      st.generatedPassingTests := by
  unfold validateCompletionM
  cases h : findRecord st.records ((p.completeTest c).getD c) <;> simp [h]

theorem pushRefined_worklist (pr : PromptRec) (tid : Nat) (name : Str) :
    ∀ (qs : List Prompt) (st : RunState),
    (pushRefined pr tid name st qs).worklist =
      (qs.map (fun q => (⟨q, [⟨pr.prompt, tid, name⟩]⟩ : PromptRec))).reverse ++
        st.worklist
  | [], st => rfl
  | q :: qs, st => by
    simp only [pushRefined, List.foldl_cons, List.map_cons, List.reverse_cons]
    rw [show (List.foldl _ _ qs : RunState) = pushRefined pr tid name
      { st with worklist := ⟨q, [⟨pr.prompt, tid, name⟩]⟩ :: st.worklist } qs from rfl]
    rw [pushRefined_worklist pr tid name qs]
    simp

theorem pushRefined_frame (pr : PromptRec) (tid : Nat) (name : Str) :
    ∀ (qs : List Prompt) (st : RunState),
    (pushRefined pr tid name st qs).generated = st.generated ∧
    (pushRefined pr tid name st qs).generatedPassingTests =
      st.generatedPassingTests ∧
    (pushRefined pr tid name st qs).records = st.records ∧
    (pushRefined pr tid name st qs).results = st.results ∧
    (pushRefined pr tid name st qs).validations = st.validations ∧
    (pushRefined pr tid name st qs).promptInfos = st.promptInfos ∧
    (pushRefined pr tid name st qs).queries = st.queries
  | [], st => by simp [pushRefined]
  | q :: qs, st => by
    simp only [pushRefined, List.foldl_cons]
    exact pushRefined_frame pr tid name qs _

theorem refinePrompts_frame (pr : PromptRec) (c : Str) (info : TestInfoRec)
    (st : RunState) :
    (refinePrompts pr c info st).generated = st.generated ∧
    (refinePrompts pr c info st).generatedPassingTests =
      st.generatedPassingTests ∧
    (refinePrompts pr c info st).records = st.records ∧
    (refinePrompts pr c info st).results = st.results ∧
    (refinePrompts pr c info st).validations = st.validations ∧
    (refinePrompts pr c info st).promptInfos = st.promptInfos ∧
    (refinePrompts pr c info st).queries = st.queries := by
  simp only [refinePrompts, refinerList, List.foldl_cons, List.foldl_nil]
  refine ⟨?_, ?_, ?_, ?_, ?_, ?_, ?_⟩ <;>
    simp [pushRefined_frame]

theorem processOneTest_frame (orc : Oracles) (pr : PromptRec) (t : Str)
    (st : RunState) :
    (processOneTest orc pr t st).generated = st.generated ∧
    (processOneTest orc pr t st).queries = st.queries ∧
    (processOneTest orc pr t st).promptInfos = st.promptInfos := by
  unfold processOneTest
  have hv := validateCompletionM_frame orc pr.prompt t st
  have h3 := refinePrompts_frame pr t (validateCompletionM orc pr.prompt t st).1
    (if outcomeIsPassed (validateCompletionM orc pr.prompt t st).1.outcome
     then { (validateCompletionM orc pr.prompt t st).2 with generatedPassingTests := true }
     else (validateCompletionM orc pr.prompt t st).2)
  rcases h3 with ⟨h3g, -, -, -, -, h3p, h3q⟩
  refine ⟨h3g.trans ?_, h3q.trans ?_, h3p.trans ?_⟩ <;> split <;>
    simp [hv.2.1, hv.2.2.1, hv.2.2.2.1]

theorem processTests_frame (orc : Oracles) (pr : PromptRec) :
    ∀ (ts : List Str) (st : RunState),
    (processTests orc pr ts st).generated = st.generated ∧
    (processTests orc pr ts st).queries = st.queries ∧
    (processTests orc pr ts st).promptInfos = st.promptInfos
  | [], _ => ⟨rfl, rfl, rfl⟩
  | t :: ts, st => by
    have h1 := processOneTest_frame orc pr t st
    have ih := processTests_frame orc pr ts (processOneTest orc pr t st)
    simp only [processTests]
    split
    · exact h1
    · exact ⟨ih.1.trans h1.1, ih.2.1.trans h1.2.1, ih.2.2.trans h1.2.2⟩

theorem processRaws_frame (orc : Oracles) (pr : PromptRec) :
    ∀ (raws : List Str) (st : RunState),
    (processRaws orc pr raws st).generated = st.generated ∧
    (processRaws orc pr raws st).queries = st.queries ∧
    (processRaws orc pr raws st).promptInfos = st.promptInfos
  | [], _ => ⟨rfl, rfl, rfl⟩
  | raw :: raws, st => by
    simp only [processRaws]
    split
    · have h1 := processTests_frame orc pr (extractTestFromRawCompletion raw) st
      have ih := processRaws_frame orc pr raws
        (processTests orc pr (extractTestFromRawCompletion raw) st)
      exact ⟨ih.1.trans h1.1, ih.2.1.trans h1.2.1, ih.2.2.trans h1.2.2⟩
    · exact processRaws_frame orc pr raws st

theorem stepPrompt_promptInfos (orc : Oracles) (pr : PromptRec) (st : RunState) :
    (stepPrompt orc pr st).promptInfos = st.promptInfos ∨
    (stepPrompt orc pr st).promptInfos =
      st.promptInfos ++ [⟨pr.prompt, []⟩] := by
  unfold stepPrompt
  cases h : lookupGenerated st.generated pr.prompt.assemble
  · right
    have hf := processRaws_frame orc pr (orc.completions pr.prompt.assemble)
      { st with generated := st.generated ++ [(pr.prompt.assemble, pr)],
                queries := st.queries ++ [pr.prompt.assemble] }
    simp [h, hf.2.2]
  · left
    simp [h]

/-! ## C8 — empty extracted candidates -/

set_option maxRecDepth 100000 in
/-- C8, counterexample.  The claim says an empty extracted candidate is
always recorded as FAILED("Empty test").  But when the empty candidate's
completed source was already recorded — here by first validating the
two-space candidate `"  "`, which completes to the same stubbed source —
`validateCompletion` returns the memoized record before the empty check,
so nothing is recorded at all (the lone recorded outcome remains the
validator's `boom`), and the returned record carries `boom`, not
"Empty test".  (The validator is still not invoked.) -/
theorem c8_counterexample :
    c8Result2.2.results = c8State1.results ∧
    c8State1.results = [(0, TestOutcome.failed ("boom".toList))] ∧
    c8Result2.1.outcome = TestOutcome.failed ("boom".toList) ∧
    c8Result2.1.prompts.length = 2 ∧
    c8Result2.2.validations = c8State1.validations := by
  refine ⟨by decide, by decide, by decide, by decide, by decide⟩

/-- C8, amended.  For an empty extracted candidate, `validateCompletion`
never invokes the validator collaborator; and when the empty candidate's
completed source has not been recorded before, it records the outcome
FAILED("Empty test"). -/
theorem c8_empty_no_validator (orc : Oracles) (p : Prompt) (st : RunState) :
    (validateCompletionM orc p [] st).2.validations = st.validations ∧
    (findRecord st.records ((p.completeTest []).getD []) = none →
      (validateCompletionM orc p [] st).2.results =
        st.results ++ [(st.records.length, TestOutcome.failed emptyTestMsg)] ∧
      (validateCompletionM orc p [] st).1.outcome =
        TestOutcome.failed emptyTestMsg) := by
  unfold validateCompletionM
  cases h : findRecord st.records ((p.completeTest []).getD []) <;> simp [h]

/-- C8, witness: on an empty collector state the empty candidate records
FAILED("Empty test") and the validator invocation log stays empty. -/
theorem c8_witness :
    (validateCompletionM c8Oracles plusBasePrompt [] emptyState).2.validations =
      emptyState.validations ∧
    (validateCompletionM c8Oracles plusBasePrompt [] emptyState).2.results =
      emptyState.results ++
        [(emptyState.records.length, TestOutcome.failed emptyTestMsg)] :=
  ⟨(c8_empty_no_validator c8Oracles plusBasePrompt emptyState).1,
   ((c8_empty_no_validator c8Oracles plusBasePrompt emptyState).2 rfl).1⟩

/-! ## C9 — recordPromptInfo always receives an empty completion set -/

theorem runLoop_promptInfos_inv (orc : Oracles) :
    ∀ (n : Nat) (st : RunState),
    (∀ e ∈ st.promptInfos, e.completions = []) →
    ∀ e ∈ (runLoop orc n st).promptInfos, e.completions = []
  | 0, _, hst => hst
  | n + 1, st, hst => by
    simp only [runLoop]
    cases hwl : st.worklist with
    | nil => exact hst
    | cons pr rest =>
      refine runLoop_promptInfos_inv orc n _ ?_
      rcases stepPrompt_promptInfos orc pr { st with worklist := rest } with h | h <;>
        rw [h]
      · exact hst
      · intro e he
        rcases List.mem_append.1 he with he | he
        · exact hst e he
        · simp at he
          simp [he]

/-- C9.  In every run, every `recordPromptInfo` call receives an empty
completion set: the driver's local `completions` set is created but never
populated from the model's raw completions. -/
theorem c9_completions_empty (orc : Oracles) (f : APIFunction)
    (snippets : List Str) (n : Nat) :
    ∀ e ∈ (runForTemperature orc f snippets n).promptInfos,
      e.completions = [] := by
  refine runLoop_promptInfos_inv orc n (initState f snippets) ?_
  intro e he
  simp [initState] at he

set_option maxRecDepth 100000 in
/-- C9, witness: the driver scenario records prompt info for the base
prompt, and its completion set is empty even though the model returned a
completion. -/
theorem c9_witness :
    (⟨c2BasePrompt, []⟩ : PromptInfoEntry).completions = [] ∧
    (⟨c2BasePrompt, []⟩ : PromptInfoEntry) ∈ c2Run.promptInfos ∧
    c2Oracles.completions c2BasePrompt.assemble ≠ [] :=
  ⟨c9_completions_empty c2Oracles plusFun c2Snippets 10 _ (by decide),
   by decide, by decide⟩

/-! ## C2 — behavior after the first PASSED candidate -/

set_option maxRecDepth 400000 in
/-- C2, counterexample.  In the driver scenario the one query's completion
extracts two candidates and the first one passes.  Contrary to the claim,
the remaining candidate is NOT validated (only one record and one
validation exist), and the run does NOT stop processing the worklist (a
second model query is issued for the refined prompt pushed after the
pass). -/
theorem c2_counterexample :
    (extractTestFromRawCompletion c2Raw).length = 2 ∧
    c2Run.generatedPassingTests = true ∧
    c2Run.records.length = 1 ∧
    c2Run.validations.length = 1 ∧
    c2Run.queries.length = 2 ∧
    c2Run.worklist = [] := by
  exact ⟨by decide, by decide, by decide, by decide, by decide, by decide⟩

/-- C2, amended.  As soon as a candidate validates as PASSED the driver
refines on it and then `break`s: the remaining candidates of that
completion are skipped, not validated.  Once the flag is set, each later
candidate list is likewise cut off after its first element.  And the
worklist loop continues unconditionally — a set flag does not stop the
run, which keeps popping (and possibly querying) until the worklist is
empty. -/
theorem c2_pass_short_circuits :
    (∀ (orc : Oracles) (pr : PromptRec) (t : Str) (rest : List Str)
       (st : RunState),
      outcomeIsPassed (validateCompletionM orc pr.prompt t st).1.outcome = true →
      processTests orc pr (t :: rest) st = processTests orc pr [t] st) ∧
    (∀ (orc : Oracles) (pr : PromptRec) (t : Str) (rest : List Str)
       (st : RunState),
      st.generatedPassingTests = true →
      processTests orc pr (t :: rest) st = processTests orc pr [t] st) ∧
    (∀ (orc : Oracles) (n : Nat) (st : RunState) (pr : PromptRec)
       (rest : List PromptRec),
      st.worklist = pr :: rest → st.generatedPassingTests = true →
      runLoop orc (n + 1) st =
        runLoop orc n (stepPrompt orc pr { st with worklist := rest })) := by
  refine ⟨?_, ?_, ?_⟩
  · intro orc pr t rest st h
    have hflag : (processOneTest orc pr t st).generatedPassingTests = true := by
      unfold processOneTest
      rw [(refinePrompts_frame _ _ _ _).2.1]
      simp [h]
    simp [processTests, hflag]
  · intro orc pr t rest st h
    have hflag : (processOneTest orc pr t st).generatedPassingTests = true := by
      unfold processOneTest
      rw [(refinePrompts_frame _ _ _ _).2.1]
      split
      · rfl
      · rw [(validateCompletionM_frame orc pr.prompt t st).2.2.2.2]
        exact h
    simp [processTests, hflag]
  · intro orc n st pr rest hwl _
    simp [runLoop, hwl]

set_option maxRecDepth 400000 in
/-- C2, witness: in the driver scenario, processing the two extracted
candidates from the empty state equals processing only the first (the
second is skipped), because the first one passes. -/
theorem c2_witness :
    processTests c2Oracles ⟨c2BasePrompt, []⟩ (c2Cand1 :: [c2Cand2]) emptyState =
      processTests c2Oracles ⟨c2BasePrompt, []⟩ [c2Cand1] emptyState :=
  c2_pass_short_circuits.1 c2Oracles ⟨c2BasePrompt, []⟩ c2Cand1 [c2Cand2]
    emptyState (by decide)

/-! ## C3 — deduplication of assembled prompts -/

theorem absorbProvenance_keys (m : List (Str × PromptRec)) (k : Str)
    (prov : List PromptProvenance) :
    (absorbProvenance m k prov).map Prod.fst = m.map Prod.fst := by
  induction m with
  | nil => rfl
  | cons e m ih =>
    simp only [absorbProvenance, List.map_cons] at ih ⊢
    exact congrArg (List.cons e.1) ih

theorem lookupGenerated_none_not_mem (m : List (Str × PromptRec)) (k : Str)
    (h : lookupGenerated m k = none) : k ∉ m.map Prod.fst := by
  unfold lookupGenerated at h
  rcases hf : m.find? (fun e => e.1 == k) with _ | e
  · intro hmem
    rcases List.mem_map.1 hmem with ⟨e, he, hek⟩
    have := List.find?_eq_none.1 hf e he
    simp [hek] at this
  · rw [hf] at h
    simp at h

theorem stepPrompt_queries_inv (orc : Oracles) (pr : PromptRec) (st : RunState)
    (h1 : st.queries = st.generated.map Prod.fst) (h2 : st.queries.Nodup) :
    (stepPrompt orc pr st).queries =
      (stepPrompt orc pr st).generated.map Prod.fst ∧
    (stepPrompt orc pr st).queries.Nodup := by
  unfold stepPrompt
  cases h : lookupGenerated st.generated pr.prompt.assemble
  · have hf := processRaws_frame orc pr (orc.completions pr.prompt.assemble)
      { st with generated := st.generated ++ [(pr.prompt.assemble, pr)],
                queries := st.queries ++ [pr.prompt.assemble] }
    have hnm := lookupGenerated_none_not_mem st.generated pr.prompt.assemble h
    rw [← h1] at hnm
    simp only [h]
    constructor
    · show (processRaws _ _ _ _).queries = List.map Prod.fst (processRaws _ _ _ _).generated
      rw [hf.2.1, hf.1]
      simp [h1]
    · show (processRaws _ _ _ _).queries.Nodup
      rw [hf.2.1]
      simp [List.nodup_append, h2, hnm]
  · simp only [h]
    exact ⟨by simpa [absorbProvenance_keys] using h1, by simpa using h2⟩

theorem runLoop_queries_nodup (orc : Oracles) :
    ∀ (n : Nat) (st : RunState),
    st.queries = st.generated.map Prod.fst → st.queries.Nodup →
    (runLoop orc n st).queries.Nodup
  | 0, _, _, h2 => h2
  | n + 1, st, h1, h2 => by
    simp only [runLoop]
    cases hwl : st.worklist with
    | nil => exact h2
    | cons pr rest =>
      have hs := stepPrompt_queries_inv orc pr { st with worklist := rest } h1 h2
      exact runLoop_queries_nodup orc n _ hs.1 hs.2

/-- C3.  (i) When the popped prompt's assembled text is already in the
dedup map, the step reduces to the canonical prompt absorbing the popped
prompt's provenance records: no model query is issued, nothing is
validated or recorded, and the popped prompt is discarded.  (ii) Across a
whole run the query log never repeats an assembled text — at most one
model query per distinct assembled prompt text. -/
theorem c3_dedup_no_requery :
    (∀ (orc : Oracles) (pr : PromptRec) (st : RunState) (canon : PromptRec),
      lookupGenerated st.generated pr.prompt.assemble = some canon →
      stepPrompt orc pr st =
        { st with generated :=
            (absorbProvenance st.generated pr.prompt.assemble pr.provenance) }) ∧
    (∀ (orc : Oracles) (f : APIFunction) (snippets : List Str) (n : Nat),
      ((runForTemperature orc f snippets n).queries).Nodup) := by
  constructor
  · intro orc pr st canon h
    unfold stepPrompt
    simp [h]
  · intro orc f snippets n
    exact runLoop_queries_nodup orc n (initState f snippets) rfl (by simp [initState])

set_option maxRecDepth 400000 in
/-- C3, witness: a rediscovered copy of the base prompt hits the dedup
map, the canonical prompt absorbs its provenance, and no query happens;
and the driver scenario's query log is duplicate-free. -/
theorem c3_witness :
    stepPrompt c2Oracles c3DupPrompt c3DupState =
      { c3DupState with generated :=
          (absorbProvenance c3DupState.generated c2BasePrompt.assemble
            c3DupPrompt.provenance) } ∧
    c2Run.queries.Nodup :=
  ⟨c3_dedup_no_requery.1 c2Oracles c3DupPrompt c3DupState ⟨c2BasePrompt, []⟩
     (by decide),
   c3_dedup_no_requery.2 c2Oracles plusFun c2Snippets 10⟩

/-! ## C7 — extraction of two-test suites -/

/-- Slicing out the middle piece of a concatenation. -/
theorem substringJS_append (A b C : Str) :
    substringJS (A ++ (b ++ C)) (A.length : Int) ((A.length + b.length : Nat) : Int) = b := by
  simp only [substringJS]
  have hlen : ((A ++ (b ++ C)).length : Int) = ((A.length + (b.length + C.length) : Nat) : Int) := by
    simp
  rw [hlen]
  have h1 : max 0 (min (A.length : Int) ((A.length + (b.length + C.length) : Nat) : Int)) = (A.length : Int) := by
    push_cast
    omega
  have h2 : max 0 (min ((A.length + b.length : Nat) : Int) ((A.length + (b.length + C.length) : Nat) : Int)) = ((A.length + b.length : Nat) : Int) := by
    push_cast
    omega
  rw [h1, h2]
  have h3 : ((A.length : Int)).toNat = A.length := by omega
  have h4 : (((A.length + b.length : Nat) : Int)).toNat = A.length + b.length := by omega
  rw [h3, h4]
  have h5 : min A.length (A.length + b.length) = A.length := by omega
  have h6 : max A.length (A.length + b.length) = A.length + b.length := by omega
  rw [h5, h6]
  have h7 : (A ++ (b ++ C)).drop A.length = b ++ C := List.drop_left A (b ++ C)
  rw [h7]
  have h8 : A.length + b.length - A.length = b.length := by omega
  rw [h8]
  exact List.take_left b C

/-- Slicing out the tail of a concatenation. -/
theorem substringFrom_append (A b : Str) :
    substringFrom (A ++ b) (A.length : Int) = b := by
  simp only [substringFrom, substringJS]
  have hlen : ((A ++ b).length : Int) = ((A.length + b.length : Nat) : Int) := by simp
  rw [hlen]
  have h1 : max 0 (min (A.length : Int) ((A.length + b.length : Nat) : Int)) = (A.length : Int) := by
    push_cast; omega
  have h2 : max 0 (min ((A.length + b.length : Nat) : Int) ((A.length + b.length : Nat) : Int)) = ((A.length + b.length : Nat) : Int) := by
    push_cast; omega
  rw [h1, h2]
  have h3 : ((A.length : Int)).toNat = A.length := by omega
  have h4 : (((A.length + b.length : Nat) : Int)).toNat = A.length + b.length := by omega
  rw [h3, h4]
  have h5 : min A.length (A.length + b.length) = A.length := by omega
  have h6 : max A.length (A.length + b.length) = A.length + b.length := by omega
  rw [h5, h6, List.drop_left A b]
  have h8 : A.length + b.length - A.length = b.length := by omega
  rw [h8]
  simp

/-- Slicing out an initial piece. -/
theorem substringJS_zero (b C : Str) :
    substringJS (b ++ C) 0 (b.length : Int) = b := by
  have h := substringJS_append [] b C
  simpa using h

/-- A string contains every pattern that prefixes it. -/
theorem strContains_of_isPrefixOf (s pat : Str) (h : pat.isPrefixOf s = true) :
    strContains s pat = true := by
  cases s with
  | nil => simp [strContains, breakOnStr, h]
  | cons c tl => simp [strContains, breakOnStr, h]

/-- A string contains every pattern that prefixes an inner piece. -/
theorem strContains_append_of_isPrefixOf :
    ∀ (a b c pat : Str), pat.isPrefixOf b = true →
    strContains (a ++ (b ++ c)) pat = true
  | [], b, c, pat, h => by
    apply strContains_of_isPrefixOf
    rw [List.nil_append]
    rw [List.isPrefixOf_iff_prefix] at h ⊢
    exact h.trans (List.prefix_append b c)
  | x :: a', b, c, pat, h => by
    simp only [List.cons_append, strContains, breakOnStr]
    split
    · simp
    · have ih := strContains_append_of_isPrefixOf a' b c pat h
      unfold strContains at ih
      cases hb : breakOnStr (a' ++ (b ++ c)) pat with
      | none => rw [hb] at ih; simp at ih
      | some p => simp [hb]

/-- The bracket scan is compositional: scanning a concatenation threads the
pending-closer stack through the two halves. -/
theorem closeBracketsRun_append :
    ∀ (a b : Str) (st : List Char),
    closeBracketsRun (a ++ b) st =
      (closeBracketsRun a st).bind (closeBracketsRun b)
  | [], b, st => by simp [closeBracketsRun]
  | c :: a', b, st => by
    simp only [List.cons_append, closeBracketsRun]
    cases hc : closerFor c with
    | some cl =>
      simp only [hc]
      exact closeBracketsRun_append a' b (cl :: st)
    | none =>
      simp only [hc]
      by_cases hcl : isCloser c
      · simp only [hcl, if_true]
        cases st with
        | nil => simp
        | cons top rest =>
          by_cases hct : c == top
          · simp only [hct, if_true]
            exact closeBracketsRun_append a' b rest
          · simp [hct]
      · simp only [Bool.not_eq_true] at hcl
        simp only [hcl, Bool.false_eq_true, if_false]
        exact closeBracketsRun_append a' b st

set_option maxRecDepth 400000 in
/-- C7, counterexample.  `c7DupRaw`'s first fenced block is a suite with
exactly two test-case occurrences (JS `split("it(")` length 3) under one
suite header, but the two one-test slices are identical, so the JS `Set`
collapses them: extraction returns one candidate, not two. -/
theorem c7_counterexample :
    firstFencedBlock c7DupRaw = some c7DupCode ∧
    (splitOnStr c7DupCode ("it(".toList)).length = 3 ∧
    ("describe(".toList).isPrefixOf c7DupCode = true ∧
    (extractTestFromRawCompletion c7DupRaw).length = 1 := by
  exact ⟨by decide, by decide, by decide, by decide⟩

/-- C7, amended.  For a raw completion whose first fenced block is
`pre ++ sh ++ t1 ++ t2` — a suite whose header `sh` starts the `describe(`
declaration, with exactly two `it(` occurrences starting `t1` and `t2`,
and with `t1 ≠ t2` — extraction returns exactly the two candidates
`pre ++ sh ++ t1` and `pre ++ sh ++ t2`, each prefixed with the material
before the suite declaration plus the shared suite header; and each
candidate whose brackets scan cleanly (no unmatched closer; the import
block itself being bracket-neutral) is accepted by `completeTest`. -/
theorem c7_two_test_split (p : Prompt) (raw pre sh t1 t2 code : Str)
    (h0 : firstFencedBlock raw = some code)
    (hcode : code = pre ++ sh ++ t1 ++ t2)
    (hsh : ("describe(".toList).isPrefixOf sh = true)
    (hsplit : (splitOnStr code ("it(".toList)).length ≠ 2)
    (hds : jsIndexOf code ("describe(".toList) = (pre.length : Int))
    (hit1 : jsIndexOf code ("it(".toList) = ((pre ++ sh).length : Int))
    (hit2 : jsIndexOfFrom code ("it(".toList) (((pre ++ sh).length : Int) + 1) =
      ((pre ++ sh ++ t1).length : Int))
    (hit3 : jsIndexOfFrom code ("it(".toList)
      (((pre ++ sh ++ t1).length : Int) + 1) = -1)
    (hne : t1 ≠ t2)
    (himp : closeBracketsRun (importsOf p.func) [] = some [])
    (hb1 : (closeBracketsRun (pre ++ sh ++ t1) []).isSome = true)
    (hb2 : (closeBracketsRun (pre ++ sh ++ t2) []).isSome = true) :
    extractTestFromRawCompletion raw = [pre ++ sh ++ t1, pre ++ sh ++ t2] ∧
    (p.completeTest (pre ++ sh ++ t1)).isSome = true ∧
    (p.completeTest (pre ++ sh ++ t2)).isSome = true := by
  have hacc : ∀ cand : Str, strContains cand ("describe(".toList) = true →
      (closeBracketsRun cand []).isSome = true →
      (p.completeTest cand).isSome = true := by
    intro cand hdesc hbal
    cases hr : closeBracketsRun cand [] with
    | none => rw [hr] at hbal; simp at hbal
    | some stk =>
      unfold Prompt.completeTest
      rw [hdesc]
      by_cases hreq : strContains (firstLine cand) ("require".toList) = true
      · rw [if_pos hreq]
        simp only [Bool.not_true, Bool.false_eq_true, if_false, List.nil_append]
        unfold closeBrackets
        rw [hr]
        simp
      · rw [if_neg hreq]
        have h2 : closeBracketsRun ((importsOf p.func ++ "\n".toList) ++ cand) [] =
            closeBracketsRun cand [] := by
          rw [List.append_assoc, closeBracketsRun_append, himp, Option.some_bind]
          rfl
        simp only [Bool.not_true, Bool.false_eq_true, if_false]
        unfold closeBrackets
        rw [h2, hr]
        simp
  have hdesc1 : strContains (pre ++ sh ++ t1) ("describe(".toList) = true := by
    rw [List.append_assoc]
    exact strContains_append_of_isPrefixOf pre sh t1 _ hsh
  have hdesc2 : strContains (pre ++ sh ++ t2) ("describe(".toList) = true := by
    rw [List.append_assoc]
    exact strContains_append_of_isPrefixOf pre sh t2 _ hsh
  refine ⟨?_, hacc _ hdesc1 hb1, hacc _ hdesc2 hb2⟩
  have hsh1 : 1 ≤ sh.length := by
    rw [List.isPrefixOf_iff_prefix] at hsh
    have := hsh.length_le
    simp at this
    omega
  obtain ⟨m, hm⟩ : ∃ m, code.length = m + 1 := by
    refine ⟨code.length - 1, ?_⟩
    have : 1 ≤ code.length := by
      subst hcode
      simp
      omega
    omega
  have hne1 : ¬ (t2 = t1) := fun h => hne h.symm
  have hne2 : (-1 : Int) ≠ ((pre ++ sh ++ t1).length : Int) := by
    have : (0 : Int) ≤ ((pre ++ sh ++ t1).length : Int) := Int.natCast_nonneg _
    omega
  have hsub1 : substringJS code ((pre ++ sh).length : Int)
      ((pre ++ sh ++ t1).length : Int) = t1 := by
    have h := substringJS_append (pre ++ sh) t1 t2
    rw [show ((pre ++ sh).length + t1.length : Nat) = (pre ++ sh ++ t1).length
      from by simp [List.length_append, Nat.add_assoc]] at h
    rw [show (pre ++ sh) ++ (t1 ++ t2) = code from by
      rw [hcode]; simp [List.append_assoc]] at h
    exact h
  have hsub2 : substringFrom code ((pre ++ sh ++ t1).length : Int) = t2 := by
    have h := substringFrom_append (pre ++ sh ++ t1) t2
    rw [show (pre ++ sh ++ t1) ++ t2 = code from hcode.symm] at h
    exact h
  have hpre : substringJS code 0 (pre.length : Int) = pre := by
    have h := substringJS_zero pre (sh ++ (t1 ++ t2))
    rw [show pre ++ (sh ++ (t1 ++ t2)) = code from by
      rw [hcode]; simp [List.append_assoc]] at h
    exact h
  have hshs : substringJS code (pre.length : Int) ((pre ++ sh).length : Int) = sh := by
    have h := substringJS_append pre sh (t1 ++ t2)
    rw [show (pre.length + sh.length : Nat) = (pre ++ sh).length from by
      simp [List.length_append]] at h
    rw [show pre ++ (sh ++ (t1 ++ t2)) = code from by
      rw [hcode]; simp [List.append_assoc]] at h
    exact h
  have hcoll : collectTests code (code.length + 1) ((pre ++ sh).length : Int) [] =
      [t1, t2] := by
    rw [show collectTests code (code.length + 1) ((pre ++ sh).length : Int) [] =
      (let next := jsIndexOfFrom code ("it(".toList) (((pre ++ sh).length : Int) + 1)
       if next = -1 then setInsert [] (substringFrom code ((pre ++ sh).length : Int))
       else collectTests code code.length next
         (setInsert [] (substringJS code ((pre ++ sh).length : Int) next)))
      from rfl]
    rw [hit2]
    rw [if_neg (Ne.symm hne2)]
    rw [hsub1]
    rw [hm]
    rw [show collectTests code (m + 1) ((pre ++ sh ++ t1).length : Int)
        (setInsert [] t1) =
      (let next := jsIndexOfFrom code ("it(".toList)
        (((pre ++ sh ++ t1).length : Int) + 1)
       if next = -1 then setInsert (setInsert [] t1)
         (substringFrom code ((pre ++ sh ++ t1).length : Int))
       else collectTests code m next
         (setInsert (setInsert [] t1)
           (substringJS code ((pre ++ sh ++ t1).length : Int) next)))
      from rfl]
    rw [hit3]
    rw [if_pos rfl]
    rw [hsub2]
    simp [setInsert, hne1]
  simp only [extractTestFromRawCompletion, h0]
  rw [if_neg hsplit]
  rw [hds, hit1, hcoll, hpre, hshs]
  simp [setInsert, hne1]

set_option maxRecDepth 400000 in
/-- C7, witness: the two-test completion `c2Raw` splits into its two
candidates and both are accepted by `completeTest`. -/
theorem c7_witness :
    extractTestFromRawCompletion c2Raw =
      [[] ++ c7Sh ++ c7T1, [] ++ c7Sh ++ c7T2] ∧
    (plusBasePrompt.completeTest ([] ++ c7Sh ++ c7T1)).isSome = true ∧
    (plusBasePrompt.completeTest ([] ++ c7Sh ++ c7T2)).isSome = true :=
  c7_two_test_split plusBasePrompt c2Raw [] c7Sh c7T1 c7T2 c7Code
    (by decide) (by decide) (by decide) (by decide) (by decide) (by decide)
    (by decide) (by decide) (by decide) (by decide) (by decide) (by decide)

end TP

namespace TP

theorem mem_allOptionCombos (o : PromptOptions) : o ∈ allOptionCombos := by
  rcases o with ⟨s, d, b⟩
  cases s <;> cases d <;> cases b <;> simp [allOptionCombos]

theorem completeTest_congr (p q : Prompt) (h : p.func = q.func) (b : Str)
    (stub : Bool) : p.completeTest b stub = q.completeTest b stub := by
  unfold Prompt.completeTest
  rw [h]

theorem assemble_retry (p : Prompt) (b m : Str)
    (hk : p.kind = PromptKind.retryK b m) :
    p.assemble = retryExpand ((p.completeTest b).getD []) m := by
  unfold Prompt.assemble
  rw [hk]

theorem assemble_mem_allTexts (orc : Oracles) (f : APIFunction)
    (snippets : List Str) (p : Prompt)
    (hp : PromptShape orc f snippets p) :
    p.assemble ∈ allTexts orc f snippets := by
  obtain ⟨hf, hs, hk⟩ := hp
  rcases hk with hk | ⟨b, m, hk, hb, hm⟩
  · have hp' : p = mkPrompt f snippets p.options := by
      rcases p with ⟨func, us, o, k⟩
      simp only [mkPrompt, Prompt.mk.injEq]
      exact ⟨hf, hs, trivial, hk⟩
    rw [hp']
    apply List.mem_append_left
    exact List.mem_map.2 ⟨p.options, mem_allOptionCombos _, rfl⟩
  · have hassemble : p.assemble = retryTextOf f b m := by
      rw [assemble_retry p b m hk,
        completeTest_congr p (mkPrompt f [] defaultPromptOptions) hf b true]
      rfl
    rw [hassemble]
    apply List.mem_append_right
    unfold retryTexts
    exact List.mem_flatMap.2 ⟨b, hb, List.mem_map.2 ⟨m, hm, rfl⟩⟩

theorem snippetIncluderRefine_length (p : Prompt) (c : Str) (o : TestOutcome) :
    (snippetIncluderRefine p c o).length ≤ 1 := by
  unfold snippetIncluderRefine
  split <;> simp

theorem docCommentIncluderRefine_length (p : Prompt) (c : Str) (o : TestOutcome) :
    (docCommentIncluderRefine p c o).length ≤ 1 := by
  unfold docCommentIncluderRefine
  split <;> simp

theorem functionBodyIncluderRefine_length (p : Prompt) (c : Str) (o : TestOutcome) :
    (functionBodyIncluderRefine p c o).length ≤ 1 := by
  unfold functionBodyIncluderRefine
  split <;> simp

theorem retryWithErrorRefine_length (p : Prompt) (c : Str) (o : TestOutcome) :
    (retryWithErrorRefine p c o).length ≤ 1 := by
  unfold retryWithErrorRefine
  cases o <;> simp
  split <;> simp

theorem findRecord_testSource (rs : List TestInfoRec) (src : Str)
    (r : TestInfoRec) (h : findRecord rs src = some r) : r.testSource = src := by
  have := List.find?_some h
  simpa using this

end TP

namespace TP

theorem mem_updateRecord (rs : List TestInfoRec) (rn x : TestInfoRec)
    (hx : x ∈ updateRecord rs rn) : x = rn ∨ x ∈ rs := by
  simp only [updateRecord, List.mem_map] at hx
  obtain ⟨y, hy, he⟩ := hx
  by_cases h : y.id == rn.id
  · left
    rw [← he]
    simp [h]
  · right
    rw [← he]
    simp only [h, Bool.false_eq_true, if_false]
    exact hy

theorem validateCompletionM_outcome (orc : Oracles) (f : APIFunction)
    (p : Prompt) (c : Str) (st : RunState)
    (hrec : RecordsInv orc f st) (hf : p.func = f) :
    ((validateCompletionM orc p c st).1.outcome = TestOutcome.failed emptyTestMsg ∨
     (validateCompletionM orc p c st).1.outcome = TestOutcome.failed invalidSyntaxMsg ∨
     (validateCompletionM orc p c st).1.outcome =
       orc.validateTest f.accessPath (recordSrcOf f c)) ∧
    RecordsInv orc f (validateCompletionM orc p c st).2 := by
  have hkey : (p.completeTest c).getD c = recordSrcOf f c := by
    rw [completeTest_congr p (mkPrompt f [] defaultPromptOptions) hf c true]
    rfl
  simp only [validateCompletionM]
  cases hfind : findRecord st.records ((p.completeTest c).getD c) with
  | some r =>
    have hr := hrec r (List.mem_of_find?_eq_some hfind)
    have hsrc : r.testSource = recordSrcOf f c :=
      (findRecord_testSource _ _ _ hfind).trans hkey
    constructor
    · simp only [hfind]
      rcases hr with h | h | h
      · exact Or.inl h
      · exact Or.inr (Or.inl h)
      · right; right
        rw [← hsrc]
        exact h
    · intro r0 hr0
      simp only [hfind] at hr0
      rcases mem_updateRecord _ _ _ hr0 with h | h
      · rw [h]
        rcases hr with h1 | h1 | h1
        · exact Or.inl h1
        · exact Or.inr (Or.inl h1)
        · exact Or.inr (Or.inr h1)
      · exact hrec r0 h
  | none =>
    rw [hkey] at hfind
    rw [hkey]
    clear hkey
    by_cases hc : c = []
    · subst hc
      constructor
      · left
        simp [hfind]
      · intro r0 hr0
        simp only [hfind] at hr0
        simp at hr0
        rcases hr0 with h | h
        · exact hrec r0 h
        · rw [h]
          left
          rfl
    · cases hts : p.completeTest c with
      | some src =>
        have hsrc : recordSrcOf f c = src := by
          unfold recordSrcOf
          rw [← completeTest_congr p (mkPrompt f [] defaultPromptOptions) hf c true,
            hts]
          rfl
        constructor
        · right; right
          simp [hfind, hc, hts, hf, hsrc]
        · intro r0 hr0
          simp only [hfind] at hr0
          simp [hc, hts] at hr0
          rcases hr0 with h | h
          · exact hrec r0 h
          · rw [h]
            right; right
            simp [hf, hsrc]
      | none =>
        constructor
        · right; left
          simp [hfind, hc, hts]
        · intro r0 hr0
          simp only [hfind] at hr0
          simp [hc, hts] at hr0
          rcases hr0 with h | h
          · exact hrec r0 h
          · rw [h]
            right; left
            rfl

end TP

namespace TP

theorem lookupGenerated_absorb (m : List (Str × PromptRec)) (k : Str)
    (prov : List PromptProvenance) (t : Str) :
    (lookupGenerated (absorbProvenance m k prov) t).isNone =
      (lookupGenerated m t).isNone := by
  unfold lookupGenerated absorbProvenance
  induction m with
  | nil => rfl
  | cons e m ih =>
    rw [List.map_cons]
    simp only [List.find?]
    by_cases h : (e.1 == t) = true
    · simp [h]
    · rw [Bool.not_eq_true] at h
      simp only [h]
      exact ih

theorem lookupGenerated_append_none (m : List (Str × PromptRec))
    (e : Str × PromptRec) (t : Str)
    (h : (lookupGenerated (m ++ [e]) t).isNone = true) :
    (lookupGenerated m t).isNone = true := by
  unfold lookupGenerated at h ⊢
  cases hf : m.find? (fun x => x.1 == t) with
  | none => rfl
  | some x =>
    rw [List.find?_append, hf] at h
    simp at h

theorem lookupGenerated_append_self (m : List (Str × PromptRec))
    (pr : PromptRec) (t : Str) :
    (lookupGenerated (m ++ [(t, pr)]) t).isNone = false := by
  unfold lookupGenerated
  rw [List.find?_append]
  cases hf : m.find? (fun x => x.1 == t) <;> simp

theorem filter_length_mono {α : Type} (l : List α) (p q : α → Bool)
    (himp : ∀ x, q x = true → p x = true) :
    (l.filter q).length ≤ (l.filter p).length := by
  induction l with
  | nil => simp
  | cons a l ih =>
    cases hqa : q a
    · rw [List.filter_cons_of_neg (by simp [hqa])]
      cases hpa : p a
      · rw [List.filter_cons_of_neg (by simp [hpa])]
        exact ih
      · rw [List.filter_cons_of_pos hpa]
        simp only [List.length_cons]
        omega
    · rw [List.filter_cons_of_pos hqa, List.filter_cons_of_pos (himp a hqa)]
      simp only [List.length_cons]
      omega

theorem filter_length_succ_le {α : Type} (l : List α) (p q : α → Bool)
    (himp : ∀ x, q x = true → p x = true) :
    ∀ (t : α), t ∈ l → p t = true → q t = false →
    (l.filter q).length + 1 ≤ (l.filter p).length := by
  induction l with
  | nil => intro t ht; simp at ht
  | cons a l ih =>
    intro t ht hpt hqt
    rcases List.mem_cons.1 ht with rfl | ht
    · rw [List.filter_cons_of_pos hpt, List.filter_cons_of_neg (by simp [hqt])]
      have := filter_length_mono l p q himp
      simp only [List.length_cons]
      omega
    · cases hqa : q a
      · cases hpa : p a
        · rw [List.filter_cons_of_neg (by simp [hqa]),
            List.filter_cons_of_neg (by simp [hpa])]
          exact ih t ht hpt hqt
        · rw [List.filter_cons_of_neg (by simp [hqa]), List.filter_cons_of_pos hpa]
          have := ih t ht hpt hqt
          simp only [List.length_cons]
          omega
      · rw [List.filter_cons_of_pos hqa, List.filter_cons_of_pos (himp a hqa)]
        have := ih t ht hpt hqt
        simp only [List.length_cons]
        omega

theorem le_foldr_max (l : List Nat) (x : Nat) (h : x ∈ l) :
    x ≤ l.foldr max 0 := by
  induction l with
  | nil => simp at h
  | cons a l ih =>
    rcases List.mem_cons.1 h with rfl | h
    · exact le_max_left _ _
    · exact le_trans (ih h) (le_max_right _ _)

end TP

namespace TP

theorem refinePrompts_worklist_length (pr : PromptRec) (c : Str)
    (info : TestInfoRec) (st : RunState) :
    (refinePrompts pr c info st).worklist.length ≤ st.worklist.length + 4 := by
  simp only [refinePrompts, refinerList, List.foldl_cons, List.foldl_nil]
  have hlen : ∀ (tid : Nat) (name : Str) (qs : List Prompt) (s : RunState),
      (pushRefined pr tid name s qs).worklist.length =
        qs.length + s.worklist.length := by
    intro tid name qs s
    rw [pushRefined_worklist]
    simp
  rw [hlen, hlen, hlen, hlen]
  have h1 := snippetIncluderRefine_length pr.prompt c info.outcome
  have h2 := retryWithErrorRefine_length pr.prompt c info.outcome
  have h3 := docCommentIncluderRefine_length pr.prompt c info.outcome
  have h4 := functionBodyIncluderRefine_length pr.prompt c info.outcome
  omega

theorem refinePrompts_worklist_mem (pr : PromptRec) (c : Str)
    (info : TestInfoRec) (st : RunState) :
    ∀ e ∈ (refinePrompts pr c info st).worklist,
      e ∈ st.worklist ∨
      e.prompt ∈ snippetIncluderRefine pr.prompt c info.outcome ∨
      e.prompt ∈ retryWithErrorRefine pr.prompt c info.outcome ∨
      e.prompt ∈ docCommentIncluderRefine pr.prompt c info.outcome ∨
      e.prompt ∈ functionBodyIncluderRefine pr.prompt c info.outcome := by
  have hmem : ∀ (tid : Nat) (name : Str) (qs : List Prompt) (s : RunState),
      ∀ e ∈ (pushRefined pr tid name s qs).worklist,
        e ∈ s.worklist ∨ e.prompt ∈ qs := by
    intro tid name qs s e he
    rw [pushRefined_worklist] at he
    rcases List.mem_append.1 he with h | h
    · right
      rcases List.mem_reverse.1 h with h
      rcases List.mem_map.1 h with ⟨q, hq, he⟩
      rw [← he]
      exact hq
    · exact Or.inl h
  intro e he
  simp only [refinePrompts, refinerList, List.foldl_cons, List.foldl_nil] at he
  rcases hmem _ _ _ _ e he with he | he
  · rcases hmem _ _ _ _ e he with he | he
    · rcases hmem _ _ _ _ e he with he | he
      · rcases hmem _ _ _ _ e he with he | he
        · exact Or.inl he
        · exact Or.inr (Or.inl he)
      · exact Or.inr (Or.inr (Or.inl he))
    · exact Or.inr (Or.inr (Or.inr (Or.inl he)))
  · exact Or.inr (Or.inr (Or.inr (Or.inr he)))

end TP

namespace TP

theorem includerOutputs_shape (orc : Oracles) (f : APIFunction)
    (snippets : List Str) (p : Prompt) (c : Str) (outc : TestOutcome)
    (hp : PromptShape orc f snippets p) :
    (∀ q ∈ snippetIncluderRefine p c outc, PromptShape orc f snippets q) ∧
    (∀ q ∈ docCommentIncluderRefine p c outc, PromptShape orc f snippets q) ∧
    (∀ q ∈ functionBodyIncluderRefine p c outc, PromptShape orc f snippets q) := by
  obtain ⟨hf, hs, -⟩ := hp
  refine ⟨?_, ?_, ?_⟩ <;> intro q hq
  · unfold snippetIncluderRefine at hq
    split at hq <;> simp at hq
    rw [hq]
    exact ⟨hf, hs, Or.inl rfl⟩
  · unfold docCommentIncluderRefine at hq
    split at hq <;> simp at hq
    rw [hq]
    exact ⟨hf, hs, Or.inl rfl⟩
  · unfold functionBodyIncluderRefine at hq
    split at hq <;> simp at hq
    rw [hq]
    exact ⟨hf, hs, Or.inl rfl⟩

theorem retryOutput_shape (orc : Oracles) (f : APIFunction)
    (snippets : List Str) (p : Prompt) (c : Str) (outc : TestOutcome)
    (hp : PromptShape orc f snippets p)
    (hc : p.isRetryPrompt = false → c ∈ allBaseCands orc f snippets)
    (hm : ∀ m, outc = TestOutcome.failed m → m ∈ allMessages orc f snippets) :
    ∀ q ∈ retryWithErrorRefine p c outc, PromptShape orc f snippets q := by
  obtain ⟨hf, hs, -⟩ := hp
  intro q hq
  unfold retryWithErrorRefine at hq
  cases houtc : outc with
  | failed m =>
    rw [houtc] at hq
    by_cases hr : p.isRetryPrompt
    · simp [hr] at hq
    · rw [Bool.not_eq_true] at hr
      simp only [hr, Bool.not_false, if_true] at hq
      simp at hq
      rw [hq]
      refine ⟨hf, hs, Or.inr ⟨c, m, rfl, hc (by rw [hr]), hm m houtc⟩⟩
  | passed =>
    rw [houtc] at hq
    simp at hq
  | other =>
    rw [houtc] at hq
    simp at hq

end TP

namespace TP

theorem retryWithErrorRefine_of_retry (p : Prompt) (c : Str) (o : TestOutcome)
    (h : p.isRetryPrompt = true) : retryWithErrorRefine p c o = [] := by
  unfold retryWithErrorRefine
  cases o <;> simp [h]

theorem processOneTest_inv (orc : Oracles) (f : APIFunction) (snippets : List Str)
    (pr : PromptRec) (t : Str) (st : RunState)
    (hpr : PromptShape orc f snippets pr.prompt)
    (hw : WorklistInv orc f snippets st) (hrec : RecordsInv orc f st)
    (hc : pr.prompt.isRetryPrompt = false → t ∈ allBaseCands orc f snippets) :
    WorklistInv orc f snippets (processOneTest orc pr t st) ∧
    RecordsInv orc f (processOneTest orc pr t st) ∧
    (processOneTest orc pr t st).worklist.length ≤ st.worklist.length + 4 := by
  have hval := validateCompletionM_outcome orc f pr.prompt t st hrec hpr.1
  have hvfr := validateCompletionM_frame orc pr.prompt t st
  set ires := validateCompletionM orc pr.prompt t st with hires
  set st2 := if outcomeIsPassed ires.1.outcome then
    { ires.2 with generatedPassingTests := true } else ires.2 with hst2
  have hst2w : st2.worklist = st.worklist := by
    rw [hst2]
    split <;> simpa using hvfr.1
  have hst2r : st2.records = ires.2.records := by
    rw [hst2]
    split <;> rfl
  have hpo : processOneTest orc pr t st = refinePrompts pr t ires.1 st2 := rfl
  have hrfr := refinePrompts_frame pr t ires.1 st2
  refine ⟨?_, ?_, ?_⟩
  · intro e he
    rw [hpo] at he
    rcases refinePrompts_worklist_mem pr t ires.1 st2 e he with h | h | h | h | h
    · exact hw e (by rw [← hst2w]; exact h)
    · exact (includerOutputs_shape orc f snippets pr.prompt t ires.1.outcome hpr).1 _ h
    · cases hretry : pr.prompt.isRetryPrompt
      · refine retryOutput_shape orc f snippets pr.prompt t ires.1.outcome hpr
          (fun _ => hc hretry) ?_ _ h
        intro m hom
        rcases hval.1 with h1 | h1 | h1
        · rw [hom] at h1
          injection h1 with h1
          rw [h1]
          simp [allMessages]
        · rw [hom] at h1
          injection h1 with h1
          rw [h1]
          simp [allMessages]
        · rw [hom] at h1
          unfold allMessages
          refine List.mem_cons.2 (Or.inr (List.mem_cons.2 (Or.inr ?_)))
          exact List.mem_filterMap.2 ⟨t, hc hretry, by rw [← h1]; rfl⟩
      · rw [retryWithErrorRefine_of_retry pr.prompt t ires.1.outcome hretry] at h
        simp at h
    · exact (includerOutputs_shape orc f snippets pr.prompt t ires.1.outcome hpr).2.1 _ h
    · exact (includerOutputs_shape orc f snippets pr.prompt t ires.1.outcome hpr).2.2 _ h
  · rw [hpo]
    intro r hr
    rw [hrfr.2.2.1, hst2r] at hr
    exact hval.2 r hr
  · rw [hpo]
    have hb := refinePrompts_worklist_length pr t ires.1 st2
    rw [hst2w] at hb
    omega

end TP

namespace TP

theorem bnot_true {b : Bool} (h : (!b) = true) : b = false := by
  cases b
  · rfl
  · simp at h

theorem kind_of_not_retry (p : Prompt) (h : p.isRetryPrompt = false) :
    p.kind = PromptKind.normal := by
  unfold Prompt.isRetryPrompt at h
  cases hk : p.kind with
  | normal => rfl
  | retryK b m => rw [hk] at h; simp at h

theorem assemble_mem_baseTexts (f : APIFunction) (snippets : List Str)
    (p : Prompt) (hf : p.func = f) (hs : p.usageSnippets = snippets)
    (hk : p.kind = PromptKind.normal) :
    p.assemble ∈ baseTexts f snippets := by
  have hp' : p = mkPrompt f snippets p.options := by
    rcases p with ⟨func, us, o, k⟩
    simp only [mkPrompt, Prompt.mk.injEq]
    exact ⟨hf, hs, trivial, hk⟩
  rw [hp']
  exact List.mem_map.2 ⟨p.options, mem_allOptionCombos _, rfl⟩

theorem potential_step_le (wlR wlS push maxP fR fS : Nat)
    (hwl : wlR ≤ wlS + push) (hpush : push ≤ maxP) (hfr : fR + 1 ≤ fS) :
    wlR + (maxP + 2) * fR ≤ wlS + (maxP + 2) * fS := by
  have hmul : (maxP + 2) * (fR + 1) ≤ (maxP + 2) * fS :=
    Nat.mul_le_mul_left _ hfr
  calc wlR + (maxP + 2) * fR
      ≤ (wlS + push) + (maxP + 2) * fR := Nat.add_le_add_right hwl _
    _ ≤ (wlS + maxP) + (maxP + 2) * fR :=
        Nat.add_le_add_right (Nat.add_le_add_left hpush _) _
    _ = wlS + (maxP + (maxP + 2) * fR) := by rw [Nat.add_assoc]
    _ ≤ wlS + ((maxP + 2) * fR + (maxP + 2)) := by
        refine Nat.add_le_add_left ?_ _
        rw [Nat.add_comm]
        exact Nat.add_le_add_left (Nat.le_add_right maxP 2) _
    _ = wlS + (maxP + 2) * (fR + 1) := by rw [Nat.mul_add, Nat.mul_one]
    _ ≤ wlS + (maxP + 2) * fS := Nat.add_le_add_left hmul _

theorem potential_le_of (orc : Oracles) (f : APIFunction) (snippets : List Str)
    (A : Str) (pr : PromptRec) (stR st : RunState)
    (hgen : stR.generated = st.generated ++ [(A, pr)])
    (hwl : stR.worklist.length ≤ st.worklist.length + pushBoundOf orc A)
    (hA : A ∈ allTexts orc f snippets)
    (hlk : lookupGenerated st.generated A = none) :
    potential orc f snippets stR ≤ potential orc f snippets st := by
  have hpush : pushBoundOf orc A ≤ maxPushBound orc f snippets :=
    le_foldr_max _ _ (List.mem_map.2 ⟨A, hA, rfl⟩)
  have hfr : freshCount orc f snippets stR + 1 ≤ freshCount orc f snippets st := by
    unfold freshCount
    rw [hgen]
    exact filter_length_succ_le (allTexts orc f snippets) _ _
      (fun x hx => lookupGenerated_append_none st.generated (A, pr) x hx)
      A hA (by rw [hlk]; rfl) (lookupGenerated_append_self st.generated pr A)
  unfold potential stepBudget
  exact potential_step_le _ _ _ _ _ _ hwl hpush hfr

theorem processTests_inv (orc : Oracles) (f : APIFunction) (snippets : List Str)
    (pr : PromptRec) (ts : List Str) (st : RunState)
    (hpr : PromptShape orc f snippets pr.prompt)
    (hw : WorklistInv orc f snippets st) (hrec : RecordsInv orc f st)
    (hc : pr.prompt.isRetryPrompt = false →
      ∀ t ∈ ts, t ∈ allBaseCands orc f snippets) :
    WorklistInv orc f snippets (processTests orc pr ts st) ∧
    RecordsInv orc f (processTests orc pr ts st) ∧
    (processTests orc pr ts st).worklist.length ≤
      st.worklist.length + 4 * ts.length := by
  revert hw hrec hc
  revert st
  induction ts with
  | nil =>
    intro st hw hrec _
    exact ⟨hw, hrec, by simp [processTests]⟩
  | cons t rest ih =>
    intro st hw hrec hc
    have h1 := processOneTest_inv orc f snippets pr t st hpr hw hrec
      (fun hr => hc hr t (List.mem_cons_self t rest))
    simp only [processTests]
    split
    · refine ⟨h1.1, h1.2.1, ?_⟩
      have ha := h1.2.2
      simp only [List.length_cons]
      omega
    · have h2 := ih (processOneTest orc pr t st) h1.1 h1.2.1
        (fun hr t' ht' => hc hr t' (List.mem_cons_of_mem t ht'))
      refine ⟨h2.1, h2.2.1, ?_⟩
      have ha := h1.2.2
      have hb := h2.2.2
      simp only [List.length_cons]
      omega

theorem processRaws_inv (orc : Oracles) (f : APIFunction) (snippets : List Str)
    (pr : PromptRec) (raws : List Str) (st : RunState)
    (hpr : PromptShape orc f snippets pr.prompt)
    (hw : WorklistInv orc f snippets st) (hrec : RecordsInv orc f st)
    (hc : pr.prompt.isRetryPrompt = false → ∀ raw ∈ raws,
      ∀ t ∈ extractTestFromRawCompletion raw, t ∈ allBaseCands orc f snippets) :
    WorklistInv orc f snippets (processRaws orc pr raws st) ∧
    RecordsInv orc f (processRaws orc pr raws st) ∧
    (processRaws orc pr raws st).worklist.length ≤ st.worklist.length +
      4 * (raws.map (fun raw => (extractTestFromRawCompletion raw).length)).sum := by
  revert hw hrec hc
  revert st
  induction raws with
  | nil =>
    intro st hw hrec _
    exact ⟨hw, hrec, by simp [processRaws]⟩
  | cons raw rest ih =>
    intro st hw hrec hc
    simp only [processRaws]
    split
    · have h1 := processTests_inv orc f snippets pr
        (extractTestFromRawCompletion raw) st hpr hw hrec
        (fun hr t ht => hc hr raw (List.mem_cons_self raw rest) t ht)
      have h2 := ih (processTests orc pr (extractTestFromRawCompletion raw) st)
        h1.1 h1.2.1
        (fun hr raw' hraw' => hc hr raw' (List.mem_cons_of_mem raw hraw'))
      refine ⟨h2.1, h2.2.1, ?_⟩
      have ha := h1.2.2
      have hb := h2.2.2
      simp only [List.map_cons, List.sum_cons]
      omega
    · have h2 := ih st hw hrec
        (fun hr raw' hraw' => hc hr raw' (List.mem_cons_of_mem raw hraw'))
      refine ⟨h2.1, h2.2.1, ?_⟩
      have hb := h2.2.2
      simp only [List.map_cons, List.sum_cons]
      omega

theorem stepPrompt_eq_some (orc : Oracles) (pr : PromptRec) (st : RunState)
    (x : PromptRec)
    (hlk : lookupGenerated st.generated pr.prompt.assemble = some x) :
    stepPrompt orc pr st =
      { st with generated :=
          (absorbProvenance st.generated pr.prompt.assemble pr.provenance) } := by
  simp only [stepPrompt, hlk]

theorem stepPrompt_eq_none (orc : Oracles) (pr : PromptRec) (st : RunState)
    (hlk : lookupGenerated st.generated pr.prompt.assemble = none) :
    stepPrompt orc pr st =
      { processedState orc pr st with promptInfos :=
          (processedState orc pr st).promptInfos ++ [⟨pr.prompt, []⟩] } := by
  unfold processedState queriedState
  simp only [stepPrompt, hlk]

theorem stepPrompt_inv (orc : Oracles) (f : APIFunction) (snippets : List Str)
    (pr : PromptRec) (st : RunState)
    (hpr : PromptShape orc f snippets pr.prompt)
    (hw : WorklistInv orc f snippets st) (hrec : RecordsInv orc f st) :
    WorklistInv orc f snippets (stepPrompt orc pr st) ∧
    RecordsInv orc f (stepPrompt orc pr st) ∧
    potential orc f snippets (stepPrompt orc pr st) ≤
      potential orc f snippets st := by
  cases hlk : lookupGenerated st.generated pr.prompt.assemble with
  | some x =>
    have hstep := stepPrompt_eq_some orc pr st x hlk
    refine ⟨?_, ?_, ?_⟩
    · intro e he
      rw [hstep] at he
      exact hw e he
    · intro r hr
      rw [hstep] at hr
      exact hrec r hr
    · rw [hstep]
      unfold potential freshCount
      have hco : List.filter
          (fun t => (lookupGenerated (absorbProvenance st.generated
            pr.prompt.assemble pr.provenance) t).isNone)
          (allTexts orc f snippets) =
          List.filter (fun t => (lookupGenerated st.generated t).isNone)
          (allTexts orc f snippets) := by
        apply List.filter_congr
        intro t _
        exact lookupGenerated_absorb st.generated pr.prompt.assemble
          pr.provenance t
      dsimp only
      rw [hco]
  | none =>
    have hstep := stepPrompt_eq_none orc pr st hlk
    have hc : pr.prompt.isRetryPrompt = false →
        ∀ raw ∈ orc.completions pr.prompt.assemble,
        ∀ t ∈ extractTestFromRawCompletion raw,
          t ∈ allBaseCands orc f snippets := by
      intro hret raw hraw t ht
      have hbase : pr.prompt.assemble ∈ baseTexts f snippets :=
        assemble_mem_baseTexts f snippets pr.prompt hpr.1 hpr.2.1
          (kind_of_not_retry pr.prompt hret)
      unfold allBaseCands
      refine List.mem_flatMap.2 ⟨pr.prompt.assemble, hbase, ?_⟩
      unfold candsOfText
      exact List.mem_flatMap.2 ⟨raw, hraw, ht⟩
    have h2 := processRaws_inv orc f snippets pr
      (orc.completions pr.prompt.assemble) (queriedState pr st) hpr
      (fun e he => hw e he) (fun r hr => hrec r hr) hc
    refine ⟨?_, ?_, ?_⟩
    · intro e he
      rw [hstep] at he
      exact h2.1 e he
    · intro r hr
      rw [hstep] at hr
      exact h2.2.1 r hr
    · rw [hstep]
      refine potential_le_of orc f snippets pr.prompt.assemble pr _ st ?_ ?_
        (assemble_mem_allTexts orc f snippets pr.prompt hpr) hlk
      · exact (processRaws_frame orc pr (orc.completions pr.prompt.assemble)
          (queriedState pr st)).1
      · exact h2.2.2

theorem runLoop_halts (orc : Oracles) (f : APIFunction) (snippets : List Str) :
    ∀ (k : Nat) (st : RunState),
    WorklistInv orc f snippets st → RecordsInv orc f st →
    potential orc f snippets st < k →
    (runLoop orc k st).worklist = []
  | 0, _, _, _, hpot => absurd hpot (Nat.not_lt_zero _)
  | k + 1, st, hw, hrec, hpot => by
    cases hwl : st.worklist with
    | nil =>
      have hred : runLoop orc (k + 1) st = st := by
        simp only [runLoop, hwl]
      rw [hred, hwl]
    | cons pr rest =>
      have hred : runLoop orc (k + 1) st =
          runLoop orc k (stepPrompt orc pr { st with worklist := rest }) := by
        simp only [runLoop, hwl]
      rw [hred]
      have hpr : PromptShape orc f snippets pr.prompt :=
        hw pr (by rw [hwl]; exact List.mem_cons_self pr rest)
      have hw' : WorklistInv orc f snippets { st with worklist := rest } := by
        intro e he
        exact hw e (by rw [hwl]; exact List.mem_cons_of_mem pr he)
      have hrec' : RecordsInv orc f { st with worklist := rest } :=
        fun r hr => hrec r hr
      have hs := stepPrompt_inv orc f snippets pr { st with worklist := rest }
        hpr hw' hrec'
      have hlt : potential orc f snippets { st with worklist := rest } + 1 =
          potential orc f snippets st := by
        unfold potential freshCount
        dsimp only
        rw [hwl]
        simp only [List.length_cons]
        omega
      refine runLoop_halts orc f snippets k _ hs.1 hs.2.1 ?_
      have h1 := hs.2.2
      omega

end TP

namespace TP

/-- C10: Refinement is monotone and the worklist loop terminates: each
inclusion refiner fires only when its flag is unset and every prompt it
proposes has that flag set (so each of includeSnippets, includeDocComment
and includeFunctionBody is set at most once along any lineage); the retry
refiner fires only on non-retry prompts and every prompt it proposes is a
retry prompt (at most one retry hop per lineage); and consequently every
(function, temperature) run of the driver empties its worklist after
finitely many iterations, for any oracle returning finitely many
completions per query. -/
theorem c10_monotone_terminating :
    (∀ (p : Prompt) (c : Str) (o : TestOutcome) (q : Prompt),
        q ∈ snippetIncluderRefine p c o →
        p.options.includeSnippets = false ∧ q.options.includeSnippets = true) ∧
    (∀ (p : Prompt) (c : Str) (o : TestOutcome) (q : Prompt),
        q ∈ docCommentIncluderRefine p c o →
        p.options.includeDocComment = false ∧
          q.options.includeDocComment = true) ∧
    (∀ (p : Prompt) (c : Str) (o : TestOutcome) (q : Prompt),
        q ∈ functionBodyIncluderRefine p c o →
        p.options.includeFunctionBody = false ∧
          q.options.includeFunctionBody = true) ∧
    (∀ (p : Prompt) (c : Str) (o : TestOutcome) (q : Prompt),
        q ∈ retryWithErrorRefine p c o →
        p.isRetryPrompt = false ∧ q.isRetryPrompt = true) ∧
    (∀ (orc : Oracles) (f : APIFunction) (snippets : List Str),
        ∃ fuel : Nat, (runForTemperature orc f snippets fuel).worklist = []) := by
  refine ⟨?_, ?_, ?_, ?_, ?_⟩
  · intro p c o q hq
    unfold snippetIncluderRefine at hq
    split at hq
    · next h =>
      rcases List.mem_singleton.1 hq with rfl
      rw [Bool.and_eq_true] at h
      exact ⟨bnot_true h.1, rfl⟩
    · simp at hq
  · intro p c o q hq
    unfold docCommentIncluderRefine at hq
    split at hq
    · next h =>
      rcases List.mem_singleton.1 hq with rfl
      rw [Bool.and_eq_true] at h
      exact ⟨bnot_true h.1, rfl⟩
    · simp at hq
  · intro p c o q hq
    unfold functionBodyIncluderRefine at hq
    split at hq
    · next h =>
      rcases List.mem_singleton.1 hq with rfl
      rw [Bool.and_eq_true] at h
      exact ⟨bnot_true h.1, rfl⟩
    · simp at hq
  · intro p c o q hq
    cases o with
    | passed => unfold retryWithErrorRefine at hq; simp at hq
    | other => unfold retryWithErrorRefine at hq; simp at hq
    | failed m =>
      rw [show retryWithErrorRefine p c (TestOutcome.failed m) =
        if !p.isRetryPrompt then [mkRetryPrompt p c m] else [] from rfl] at hq
      split at hq
      · next h =>
        rcases List.mem_singleton.1 hq with rfl
        exact ⟨bnot_true h, rfl⟩
      · simp at hq
  · intro orc f snippets
    refine ⟨potential orc f snippets (initState f snippets) + 1, ?_⟩
    unfold runForTemperature
    refine runLoop_halts orc f snippets _ _ ?_ ?_ (Nat.lt_succ_self _)
    · intro e he
      rcases List.mem_singleton.1 he with rfl
      exact ⟨rfl, rfl, Or.inl rfl⟩
    · intro r hr
      simp [initState] at hr

/-- Witness for C10: the snippet includer applied to the concrete
`plus` prompt with one usage snippet fires (flag unset before, set
after), and the concrete `plus` run reaches an empty worklist. -/
theorem c10_witness :
    (c2BasePrompt.options.includeSnippets = false ∧
      (mkPrompt plusFun c2Snippets ⟨true, false, false⟩).options.includeSnippets
        = true) ∧
    (∃ fuel : Nat,
      (runForTemperature c2Oracles plusFun c2Snippets fuel).worklist = []) :=
  ⟨c10_monotone_terminating.1 c2BasePrompt [] TestOutcome.passed
      (mkPrompt plusFun c2Snippets ⟨true, false, false⟩)
      (by rw [show snippetIncluderRefine c2BasePrompt [] TestOutcome.passed =
          [mkPrompt plusFun c2Snippets ⟨true, false, false⟩] from rfl]
          exact List.mem_singleton.2 rfl),
   c10_monotone_terminating.2.2.2.2 c2Oracles plusFun c2Snippets⟩

end TP
